import Mathlib

/-!
Verification development for the gatify API gateway core.

Strings from the Go source are modelled as `List Char` (`GoStr`), so that
all definitions are executable and the matching algorithms can be reasoned
about by structural induction.  Each definition carries a reference to the
Go function it embeds.
-/

namespace Gatify

/-- Go strings, modelled as lists of characters. -/
abbrev GoStr := List Char

/-- Convert a Lean string literal to the `GoStr` model. -/
def str (s : String) : GoStr := s.toList

/-- Go `strings.Split(s, sep)` for a one-character separator.
`Split("", sep) = [""]`, and the result is always non-empty. -/
def goSplit (sep : Char) : GoStr → List GoStr
  | [] => [[]]
  | c :: rest =>
    if c = sep then [] :: goSplit sep rest
    else
      match goSplit sep rest with
      | [] => [[c]]
      | s :: ss => (c :: s) :: ss

/-- ASCII whitespace, the fragment of Go `unicode.IsSpace` relevant to
header values and socket addresses. -/
def isSpaceChar (c : Char) : Bool :=
  c = ' ' ∨ c = '\t' ∨ c = '\n' ∨ c = '\r' ∨ c = Char.ofNat 11 ∨ c = Char.ofNat 12

/-- Drop leading whitespace (half of Go `strings.TrimSpace`). -/
def trimLeft : GoStr → GoStr
  | [] => []
  | c :: rest => if isSpaceChar c then trimLeft rest else c :: rest

/-- Go `strings.TrimSpace`: drop leading and trailing whitespace. -/
def trimSpace (s : GoStr) : GoStr :=
  (trimLeft (trimLeft s.reverse).reverse)

/-- ASCII upper-casing of one character (Go `strings.ToUpper` on the
method tokens used by the gateway, which are ASCII). -/
def toUpperChar (c : Char) : Char :=
  if 'a' ≤ c ∧ c ≤ 'z' then Char.ofNat (c.toNat - 32) else c

/-- Go `strings.ToUpper` (ASCII fragment). -/
def goToUpper (s : GoStr) : GoStr := s.map toUpperChar

/-- `s.isPrefixOf p` as an executable Boolean on `GoStr`. -/
def isPre : GoStr → GoStr → Bool
  | [], _ => true
  | _ :: _, [] => false
  | a :: s, b :: p => a = b ∧ isPre s p

/-! ## Rules matcher (internal/rules, `part_024`)

`patternToRegex` in the Go source compiles a path pattern into an anchored
regular expression built from three atom kinds only: `regexp.QuoteMeta`-quoted
literal segments, `([^/]+)` for a named parameter and a trailing `(.*)` for
the terminal wildcard, each preceded by a literal `/`, with a `$` anchor
appended unless the pattern string ends in `*`.  We embed the compiled
pattern as the list of segment atoms plus the anchor flag, and give the
matching semantics of that restricted regular-expression shape directly
(`matchSegs`): a quoted literal matches exactly itself, `([^/]+)` greedily
matches a maximal non-empty run of non-`/` characters (newline included,
as in a negated class), and `(.*)` — Go `.` does not match newline —
greedily captures the remainder up to the first newline. -/

/-- One compiled segment atom of a path pattern. -/
inductive Seg
  | lit (s : GoStr)
  | param (name : GoStr)
  | wild
  deriving DecidableEq, Repr

/-- Go `rules.isValidIdentifier`: letter or underscore, then letters,
digits or underscores. -/
def isValidIdentHead (c : Char) : Bool :=
  ('a' ≤ c ∧ c ≤ 'z') ∨ ('A' ≤ c ∧ c ≤ 'Z') ∨ c = '_'

/-- Non-head character of a Go-style identifier. -/
def isValidIdentRest (c : Char) : Bool :=
  isValidIdentHead c ∨ ('0' ≤ c ∧ c ≤ '9')

/-- Go `rules.isValidIdentifier`. -/
def isValidIdentifier : GoStr → Bool
  | [] => false
  | c :: rest => isValidIdentHead c ∧ rest.all isValidIdentRest

/-- The segment scan inside Go `rules.patternToRegex`: processes the
segments after the leading `/` (index `i ≥ 1` in the Go loop), rejecting a
non-terminal wildcard and empty or malformed parameter names.  Returns the
segment atoms together with the collected capture names (`*` for the
wildcard), in order. -/
def patternSegsScan : List GoStr → Except String (List Seg × List GoStr)
  | [] => .ok ([], [])
  | seg :: rest =>
    if seg = ['*'] then
      if rest ≠ [] then .error "wildcard (*) must be the last segment"
      else .ok ([Seg.wild], [['*']])
    else if seg.head? = some ':' then
      let name := seg.tail
      if name = [] then .error "empty parameter name in pattern"
      else if ¬ isValidIdentifier name then .error "invalid parameter name"
      else
        match patternSegsScan rest with
        | .error e => .error e
        | .ok (ss, ns) => .ok (Seg.param name :: ss, name :: ns)
    else
      match patternSegsScan rest with
      | .error e => .error e
      | .ok (ss, ns) => .ok (Seg.lit seg :: ss, ns)

/-- Whether the Go pattern string ends in `*` — `strings.HasSuffix(pattern, "*")`
in `patternToRegex`, which decides whether the `$` anchor is appended. -/
def endsInStar (pattern : GoStr) : Bool := pattern.getLast? = some '*'

/-- Go `rules.patternToRegex`.  (On the empty pattern the Go code would
index out of range, but `compile` rejects the empty pattern first; we
return the leading-slash error in that unreachable case.) -/
def patternToRegex (pattern : GoStr) : Except String (List Seg × List GoStr) :=
  match pattern with
  | [] => .error "pattern must start with /"
  | c :: _ =>
    if c ≠ '/' then .error "pattern must start with /"
    else patternSegsScan ((goSplit '/' pattern).drop 1)

/-- Go `rules.IdentifyBy` is a string type; the two constants are
`"ip"` and `"header"`. -/
def identifyByHeader : GoStr := str "header"

/-- Go `rules.Rule`.  `window` is the `time.Duration` in nanoseconds,
`limit` the `int64` limit. -/
structure Rule where
  name : GoStr
  pattern : GoStr
  methods : List GoStr
  priority : Int
  limit : Int
  window : Int
  identifyBy : GoStr
  headerName : GoStr
  deriving DecidableEq, Repr

/-- Go `rules.compiledRule`: the rule, its compiled pattern (segment atoms
plus anchor flag standing for the compiled regex), the capture names and
the upper-cased method set (`none` = all methods, mirroring the nil map). -/
structure CompiledRule where
  rule : Rule
  segs : List Seg
  anchored : Bool
  paramNames : List GoStr
  methods : Option (List GoStr)
  deriving DecidableEq, Repr

/-- Go `rules.compile`: validates the pattern and the
`IdentifyBy = header ⇒ HeaderName ≠ ""` invariant, then compiles the
pattern.  (The generated regex string is always well-formed, so the
`regexp.Compile` error branch is unreachable and not modelled.)  Note that
no check on `Limit` or `Window` is performed here. -/
def compileRule (r : Rule) : Except String CompiledRule :=
  if r.pattern = [] then .error "pattern is required"
  else if r.identifyBy = identifyByHeader ∧ r.headerName = [] then
    .error "HeaderName is required when IdentifyBy is header"
  else
    match patternToRegex r.pattern with
    | .error e => .error e
    | .ok (segs, names) =>
      .ok { rule := r
            segs := segs
            anchored := ¬ endsInStar r.pattern
            paramNames := names
            methods :=
              if r.methods.length > 0 then some (r.methods.map goToUpper)
              else none }

/-- The compile error returned by Go `rules.New`: it wraps the underlying
message and names the offending rule
(`fmt.Errorf("rules: failed to compile rule %q: %w", r.Name, err)`). -/
structure NewError where
  ruleName : GoStr
  msg : String
  deriving DecidableEq, Repr

/-- The compilation loop of Go `rules.New`: compile each rule in
submission order and stop at the first failure, naming that rule. -/
def compileAll : List Rule → Except NewError (List CompiledRule)
  | [] => .ok []
  | r :: rest =>
    match compileRule r with
    | .error e => .error ⟨r.name, e⟩
    | .ok cr =>
      match compileAll rest with
      | .error e => .error e
      | .ok crs => .ok (cr :: crs)

/-- The comparison used to order compiled rules: `a` may come no later
than `b` when `b`'s priority does not exceed `a`'s.  Inserting with this
relation reproduces Go `sort.SliceStable(compiled, priority-descending)`:
a stable sort by priority descending. -/
def crBefore (a b : CompiledRule) : Prop := b.rule.priority ≤ a.rule.priority

instance : DecidableRel crBefore := fun a b =>
  inferInstanceAs (Decidable (b.rule.priority ≤ a.rule.priority))

/-- `crBefore` lifted to index-tagged compiled rules (used to reason
about the stable sort). -/
def crBeforeIdx (x y : Nat × CompiledRule) : Prop := crBefore x.2 y.2

instance : DecidableRel crBeforeIdx := fun x y =>
  inferInstanceAs (Decidable (crBefore x.2 y.2))

/-- The strict order the stable sort establishes on index-tagged
compiled rules: strictly higher priority, or equal priority and earlier
submission index. -/
def idxBefore (x y : Nat × CompiledRule) : Prop :=
  y.2.rule.priority < x.2.rule.priority ∨
    (x.2.rule.priority = y.2.rule.priority ∧ x.1 < y.1)

/-- Go `rules.Matcher`: the compiled rules in priority-descending,
stable-by-submission order. -/
structure Matcher where
  compiled : List CompiledRule
  deriving DecidableEq, Repr

/-- Go `rules.New`: compile every rule (first failure aborts, naming the
rule) and stable-sort by priority descending. -/
def rulesNew (rl : List Rule) : Except NewError Matcher :=
  match compileAll rl with
  | .error e => .error e
  | .ok compiled => .ok ⟨List.insertionSort crBefore compiled⟩

/-- The character class `[^/]` of the parameter atom.  (A negated class
matches every other character, newline included.) -/
def notSlash (c : Char) : Bool := c ≠ '/'

/-- What Go regexp `.` matches: any character EXCEPT newline (the
`(.*)` wildcard atom therefore captures only up to the first `\n`). -/
def notNewline (c : Char) : Bool := c ≠ '\n'

/-- Matching semantics of the compiled pattern shape generated by
`patternToRegex` (see the section comment): returns the capture list on
success.  Each segment atom consumes a literal `/` followed by its own
text; with the `$` anchor the whole path must be consumed, without it a
prefix match suffices.  The wildcard atom `(.*)` is only generated as the
final atom of a `*`-terminated (hence unanchored) pattern and captures
the remainder up to the first newline, since Go regexp `.` does not
match `\n`. -/
def matchSegs : List Seg → Bool → GoStr → Option (List GoStr)
  | [], anchored, path =>
    if anchored then (if path = [] then some [] else none) else some []
  | seg :: rest, anchored, path =>
    match path with
    | [] => none
    | c :: p =>
      if c = '/' then
        match seg with
        | .lit s =>
          if isPre s p then matchSegs rest anchored (p.drop s.length) else none
        | .param _ =>
          let cap := p.takeWhile notSlash
          if cap = [] then none
          else (matchSegs rest anchored (p.drop cap.length)).map (cap :: ·)
        | .wild => if rest = [] then some [p.takeWhile notNewline] else none
      else none

/-- Whether a compiled rule accepts the (already upper-cased) method and
the path — the per-rule test inside Go `Matcher.Match`. -/
def crAccepts (cr : CompiledRule) (upperMethod path : GoStr) : Bool :=
  (match cr.methods with
   | some ms => ms.contains upperMethod
   | none => true) && (matchSegs cr.segs cr.anchored path).isSome

/-- Go `rules.Match` (the result record): the matched rule and the
extracted parameters.  Go builds a map keyed by parameter name; we keep
the (name, capture) pairs in capture order (for duplicate names the Go
map would keep the last pair; no rule in this development relies on
duplicate parameter names). -/
structure MatchResult where
  rule : Rule
  params : List (GoStr × GoStr)
  deriving DecidableEq, Repr

/-- Build the `Match` value Go returns for a compiled rule and its
capture list. -/
def mkMatchResult (cr : CompiledRule) (caps : List GoStr) : MatchResult :=
  ⟨cr.rule, cr.paramNames.zip caps⟩

/-- The scan loop of Go `Matcher.Match`: first compiled rule whose method
set and regex accept wins. -/
def matchScan (upperMethod path : GoStr) : List CompiledRule → Option MatchResult
  | [] => none
  | cr :: rest =>
    match cr.methods with
    | some ms =>
      if ms.contains upperMethod then
        match matchSegs cr.segs cr.anchored path with
        | some caps => some (mkMatchResult cr caps)
        | none => matchScan upperMethod path rest
      else matchScan upperMethod path rest
    | none =>
      match matchSegs cr.segs cr.anchored path with
      | some caps => some (mkMatchResult cr caps)
      | none => matchScan upperMethod path rest

/-- Go `Matcher.Match`: upper-case the method, then scan the compiled
rules in order. -/
def matcherMatch (m : Matcher) (method path : GoStr) : Option MatchResult :=
  matchScan (goToUpper method) path m.compiled

/-! ## Sliding-window Lua script (`part_026`, `luaSlidingWindowCheck`)

The script reads the counters at the current and previous bucket keys,
computes the weighted estimate, and either denies without touching the
store or atomically increments the current counter, setting its TTL to
twice the window only when the increment created the counter
(`new_count == 1`).

Redis Lua 5.1 numbers are IEEE-754 binary64 doubles, so
`1 - (elapsed_ms / window_ms)` and the following multiplication round to
53-bit significands: at `prev = 5, window = 1000, elapsed = 800` the
script computes `floor(5 * 0.19999999999999996) = 0`, not the exact
`⌊5·200/1000⌋ = 1`.  We therefore embed the weight computation with an
exact model of binary64 round-to-nearest-even arithmetic on non-negative
values in the normal range (`Dyadic` below): every value this script can
produce is non-negative, far above the subnormal threshold (or exactly
zero, handled separately) and far below overflow, where this model
coincides with IEEE-754. -/

/-- A non-negative binary64 value, represented exactly as
`mantissa · 2^exponent`.  `roundRat` keeps the mantissa normalized to
`[2^52, 2^53)` (zero is `⟨0, 0⟩`). -/
structure Dyadic where
  mantissa : Nat
  exponent : Int
  deriving DecidableEq, Repr

/-- Fuel-bounded floor of log₂ (structural recursion so the kernel can
evaluate it on literals). -/
def log2Fuel : Nat → Nat → Nat
  | 0, _ => 0
  | fuel + 1, n => if n < 2 then 0 else log2Fuel fuel (n / 2) + 1

/-- Floor of log₂ for positive naturals (exact below `2^200`, which
covers every value the float model can build from in-range inputs). -/
def natLog2 (n : Nat) : Nat := log2Fuel 200 n

/-- Decide `a / b ≥ 2^k` for a positive fraction by cross-multiplying. -/
def fracGePow2 (a b : Nat) (k : Int) : Bool :=
  if 0 ≤ k then b * 2 ^ k.toNat ≤ a else b ≤ a * 2 ^ (-k).toNat

/-- Round the non-negative fraction `a / b` to the nearest binary64
value, ties to even mantissa — IEEE-754 round-to-nearest-even in the
normal range.  (`b = 0` cannot arise from the script: the Go wrapper
passes a positive window.) -/
def roundRat (a b : Nat) : Dyadic :=
  if a = 0 ∨ b = 0 then ⟨0, 0⟩
  else
    let e0 : Int := (natLog2 a : Int) - (natLog2 b : Int)
    let fl : Int := if fracGePow2 a b e0 then e0 else e0 - 1
    let e : Int := fl - 52
    let num := if 0 ≤ e then a else a * 2 ^ (-e).toNat
    let den := if 0 ≤ e then b * 2 ^ e.toNat else b
    let n0 := num / den
    let r := num % den
    let n :=
      if 2 * r < den then n0
      else if den < 2 * r then n0 + 1
      else if n0 % 2 = 0 then n0 else n0 + 1
    ⟨n, e⟩

/-- Lua `tonumber` of a non-negative integer: the nearest double
(exact below `2^53`). -/
def dOfNat (k : Nat) : Dyadic := roundRat k 1

/-- Binary64 division of non-negative doubles: round the exact
quotient. -/
def dDiv (x y : Dyadic) : Dyadic :=
  let d := x.exponent - y.exponent
  if 0 ≤ d then roundRat (x.mantissa * 2 ^ d.toNat) y.mantissa
  else roundRat x.mantissa (y.mantissa * 2 ^ (-d).toNat)

/-- Binary64 subtraction `x - y` for `x ≥ y ≥ 0`: round the exact
difference.  (The script only subtracts `1 - weight-fraction`, which is
never negative.) -/
def dSub (x y : Dyadic) : Dyadic :=
  let m := min x.exponent y.exponent
  let a := x.mantissa * 2 ^ (x.exponent - m).toNat
  let b := y.mantissa * 2 ^ (y.exponent - m).toNat
  let diff := a - b
  if 0 ≤ m then roundRat (diff * 2 ^ m.toNat) 1
  else roundRat diff (2 ^ (-m).toNat)

/-- Binary64 multiplication of non-negative doubles: round the exact
product. -/
def dMul (x y : Dyadic) : Dyadic :=
  let e := x.exponent + y.exponent
  if 0 ≤ e then roundRat (x.mantissa * y.mantissa * 2 ^ e.toNat) 1
  else roundRat (x.mantissa * y.mantissa) (2 ^ (-e).toNat)

/-- Lua `math.floor` of a non-negative double, as a natural number. -/
def dFloorNat (x : Dyadic) : Nat :=
  if 0 ≤ x.exponent then x.mantissa * 2 ^ x.exponent.toNat
  else x.mantissa / 2 ^ (-x.exponent).toNat

/-- The store state the script touches: the current bucket counter and
its remaining TTL in milliseconds, and the previous bucket counter.
`none` means the key is absent. -/
structure WindowState where
  cur : Option Nat
  curTTLms : Option Nat
  prev : Option Nat
  deriving DecidableEq, Repr

/-- The `{allowed, current_count, previous_count}` triple the script
returns. -/
structure ScriptReply where
  allowed : Bool
  current : Nat
  previous : Nat
  deriving DecidableEq, Repr

/-- The weighted estimate computed by the script in Lua double
arithmetic:
`math.floor(previous_count * (1 - elapsed_ms/window_ms)) + current_count`
with `/`, `-`, `*` rounding to binary64 at each step.  (The final `+`
of two integers is exact for counters below `2^53`.) -/
def estimatedCount (st : WindowState) (windowMs elapsedMs : Nat) : Nat :=
  let weight := dSub (dOfNat 1) (dDiv (dOfNat elapsedMs) (dOfNat windowMs))
  dFloorNat (dMul (dOfNat (st.prev.getD 0)) weight) + st.cur.getD 0

/-- The exact-arithmetic estimate the claim (and the spec formula)
prescribes: `⌊C_prev · (1 − elapsed/W)⌋ + C_cur` over the rationals,
i.e. `C_prev · (W − elapsed) / W + C_cur` in integer division. -/
def estimatedCountExact (st : WindowState) (windowMs elapsedMs : Nat) : Nat :=
  st.prev.getD 0 * (windowMs - elapsedMs) / windowMs + st.cur.getD 0

/-- The Lua script `luaSlidingWindowCheck`, as a state transformer on the
two bucket keys. -/
def luaSlidingWindowCheck (st : WindowState) (windowMs elapsedMs limit : Nat) :
    ScriptReply × WindowState :=
  let currentCount := st.cur.getD 0
  let previousCount := st.prev.getD 0
  let estimated := estimatedCount st windowMs elapsedMs
  if estimated ≥ limit then
    (⟨false, currentCount, previousCount⟩, st)
  else
    let newCount := currentCount + 1
    let st' : WindowState :=
      { cur := some newCount
        curTTLms := if newCount = 1 then some (windowMs * 2) else st.curTTLms
        prev := st.prev }
    (⟨true, newCount, previousCount⟩, st')

/-! ## Limiter (internal/limiter/limiter.go) -/

/-- Go `limiter.New`: validates the store reference and the positivity of
limit and window.  The limiter value itself is just the retained pair. -/
def limiterNew (hasStore : Bool) (limit window : Int) : Except String (Int × Int) :=
  if ¬ hasStore then .error "limiter: store is required"
  else if limit ≤ 0 then .error "limiter: limit must be greater than 0"
  else if window ≤ 0 then .error "limiter: window must be greater than 0"
  else .ok (limit, window)

/-! ## Gateway proxy (internal/proxy/proxy.go)

`part_022` contains a superseded revision of this file (it had no rules
engine and answered 500 on a limiter error); the named file
`internal/proxy/proxy.go` is the current code and is what we embed. -/

/-- Index of the first occurrence of a character, Go `IndexByteString`. -/
def idxOfChar (c : Char) : GoStr → Option Nat
  | [] => none
  | a :: rest => if a = c then some 0 else (idxOfChar c rest).map (· + 1)

/-- Index of the last occurrence of a character, the `last` helper of Go
`net.SplitHostPort`. -/
def lastIdxOfChar (c : Char) (s : GoStr) : Option Nat :=
  (idxOfChar c s.reverse).map (fun i => s.length - 1 - i)

/-- Go `net.SplitHostPort` (net/ipsock.go): the port starts after the
last colon; a bracketed IPv6 host is unwrapped; stray colons and brackets
are rejected.  Error messages are abbreviated. -/
def splitHostPort (hostport : GoStr) : Except String (GoStr × GoStr) :=
  match lastIdxOfChar ':' hostport with
  | none => .error "missing port in address"
  | some i =>
    if hostport.head? = some '[' then
      match idxOfChar ']' hostport with
      | none => .error "missing right bracket in address"
      | some e =>
        if e + 1 = hostport.length then .error "missing port in address"
        else if e + 1 = i then
          if (idxOfChar '[' (hostport.drop 1)).isSome then
            .error "unexpected left bracket in address"
          else if (idxOfChar ']' (hostport.drop (e + 1))).isSome then
            .error "unexpected right bracket in address"
          else .ok ((hostport.drop 1).take (e - 1), hostport.drop (i + 1))
        else if hostport.get? (e + 1) = some ':' then
          .error "too many colons in address"
        else .error "missing port in address"
    else
      let host := hostport.take i
      if (idxOfChar ':' host).isSome then .error "too many colons in address"
      else if (idxOfChar '[' hostport).isSome then
        .error "unexpected left bracket in address"
      else if (idxOfChar ']' hostport).isSome then
        .error "unexpected right bracket in address"
      else .ok (host, hostport.drop (i + 1))

/-- The request data consulted by the gateway: method, path, the
`X-Forwarded-For` value (`[]` when the header is absent, as Go
`Header.Get` returns `""`), the remote socket address, and the remaining
headers for per-rule identification. -/
structure GwRequest where
  method : GoStr
  path : GoStr
  xff : GoStr
  remoteAddr : GoStr
  headers : List (GoStr × GoStr)
  deriving DecidableEq, Repr

/-- Go `Header.Get` for the rule's header name.  Go canonicalizes MIME
header keys; we model that as a case-insensitive lookup. -/
def headerGet (headers : List (GoStr × GoStr)) (name : GoStr) : GoStr :=
  match headers.find? (fun kv => goToUpper kv.1 = goToUpper name) with
  | some kv => kv.2
  | none => []

/-- The `X-Forwarded-For` branch of Go `GatewayProxy.clientKey`: trim the
header, split on commas, trim the FIRST part; used only when non-empty. -/
def clientKeyFromXff (trustProxy : Bool) (xff : GoStr) : Option GoStr :=
  if trustProxy then
    let xfft := trimSpace xff
    if xfft ≠ [] then
      match goSplit ',' xfft with
      | [] => none
      | p0 :: _ =>
        let candidate := trimSpace p0
        if candidate ≠ [] then some candidate else none
    else none
  else none

/-- Go `GatewayProxy.clientKey`: forwarded-for branch, then the host from
`net.SplitHostPort` on the trimmed remote address, then the trimmed
remote address itself, then the literal `"unknown"`. -/
def clientKey (trustProxy : Bool) (r : GwRequest) : GoStr :=
  match clientKeyFromXff trustProxy r.xff with
  | some c => c
  | none =>
    match splitHostPort (trimSpace r.remoteAddr) with
    | .ok (host, _) =>
      if host ≠ [] then host
      else if trimSpace r.remoteAddr ≠ [] then trimSpace r.remoteAddr
      else str "unknown"
    | .error _ =>
      if trimSpace r.remoteAddr ≠ [] then trimSpace r.remoteAddr
      else str "unknown"

/-- Go `storage.Result`. `resetAtUnix` stands for `ResetAt.Unix()`. -/
structure StoreResult where
  count : Int
  limit : Int
  remaining : Int
  resetAtUnix : Int
  allowed : Bool
  deriving DecidableEq, Repr

/-- Go `proxy.Event` (the `Timestamp` field, produced by `time.Now()`,
is outside the pure model). -/
structure GwEvent where
  clientID : GoStr
  method : GoStr
  path : GoStr
  allowed : Bool
  limit : Int
  remaining : Int
  status : Int
  deriving DecidableEq, Repr

/-- What the handler does with the response: hand the request to the
upstream reverse proxy, or answer itself with the given status. -/
inductive ProxyAction
  | forward
  | reject (status : Int)
  deriving DecidableEq, Repr

/-- The observable outcome of one `ServeHTTP` call: the action, the
rate-limit headers set on the response, the `"rule"` field of the 429
JSON body when present, and the events published to the sink. -/
structure ServeOutcome where
  action : ProxyAction
  headers : List (GoStr × GoStr)
  bodyRule : Option GoStr
  events : List GwEvent
  deriving DecidableEq, Repr

/-- The gateway configuration relevant to `ServeHTTP`: the (hot-swapped)
matcher, presence of the sliding-window store, presence of the global
limiter, and the trust flag. -/
structure GatewayProxy where
  matcher : Option Matcher
  hasStore : Bool
  hasLimiter : Bool
  trustProxy : Bool
  deriving DecidableEq, Repr

/-- Integer formatting, Go `strconv.FormatInt(n, 10)`. -/
def intToGoStr (n : Int) : GoStr := (toString n).toList

/-- The three `X-RateLimit-*` headers set from a decision. -/
def rlHeaders (result : StoreResult) : List (GoStr × GoStr) :=
  [(str "X-RateLimit-Limit", intToGoStr result.limit),
   (str "X-RateLimit-Remaining", intToGoStr result.remaining),
   (str "X-RateLimit-Reset", intToGoStr result.resetAtUnix)]

/-- The code after the per-rule block of Go `GatewayProxy.ServeHTTP`:
global limiter (when wired), fail-open on error, headers, 429 or
forward.  `globalCheck` is the outcome of `limiter.Allow`. -/
def serveFallback (gp : GatewayProxy) (r : GwRequest) (clientID : GoStr)
    (globalCheck : Except Unit StoreResult) : ServeOutcome :=
  if gp.hasLimiter then
    match globalCheck with
    | .error _ =>
      ⟨.forward, [], none, [⟨clientID, r.method, r.path, true, 0, 0, 200⟩]⟩
    | .ok result =>
      if ¬ result.allowed then
        ⟨.reject 429, rlHeaders result, none,
         [⟨clientID, r.method, r.path, false, result.limit, result.remaining, 429⟩]⟩
      else
        ⟨.forward, rlHeaders result, none,
         [⟨clientID, r.method, r.path, true, result.limit, result.remaining, 200⟩]⟩
  else
    ⟨.forward, [], none, [⟨clientID, r.method, r.path, true, 0, 0, 200⟩]⟩

/-- Go `GatewayProxy.ServeHTTP`.  `ruleCheck` is the outcome of the
store's `CheckSlidingWindow` on the rule-scoped key (consulted only on the
per-rule path), `globalCheck` the outcome of `limiter.Allow`; `.error ()`
is a store-unavailable error. -/
def serveHTTP (gp : GatewayProxy) (r : GwRequest)
    (ruleCheck globalCheck : Except Unit StoreResult) : ServeOutcome :=
  let clientID := clientKey gp.trustProxy r
  match gp.matcher, gp.hasStore with
  | some m, true =>
    (match matcherMatch m r.method r.path with
     | some mt =>
       let rule := mt.rule
       match ruleCheck with
       | .error _ =>
         ⟨.forward, [], none, [⟨clientID, r.method, r.path, true, 0, 0, 200⟩]⟩
       | .ok result =>
         let hs := rlHeaders result ++ [(str "X-RateLimit-Rule", rule.name)]
         if ¬ result.allowed then
           ⟨.reject 429, hs, some rule.name,
            [⟨clientID, r.method, r.path, false, result.limit, result.remaining, 429⟩]⟩
         else
           ⟨.forward, hs, none,
            [⟨clientID, r.method, r.path, true, result.limit, result.remaining, 200⟩]⟩
     | none => serveFallback gp r clientID globalCheck)
  | _, _ => serveFallback gp r clientID globalCheck

/-- The rate-limit identity chosen on the per-rule path of `ServeHTTP`:
the trimmed header value when the rule identifies by header and the value
is non-empty, otherwise the derived client identity.  (The decision
outcome does not depend on it; it only shapes the store key.) -/
def ruleClientID (rule : Rule) (r : GwRequest) (clientID : GoStr) : GoStr :=
  if rule.identifyBy = identifyByHeader ∧ rule.headerName ≠ [] then
    let hv := trimSpace (headerGet r.headers rule.headerName)
    if hv ≠ [] then hv else clientID
  else clientID

/-! ## Event broker (`part_025`, `StatsStreamBroker`) -/

/-- Go `StatsStreamBroker`: the registry of subscriber queues (channel
contents, oldest first) keyed by id, the id counter, and the queue
capacity every channel is created with. -/
structure Broker (α : Type) where
  subscribers : List (Nat × List α)
  nextID : Nat
  bufferSize : Nat
  deriving DecidableEq, Repr

/-- Go `NewStatsStreamBroker`: capacity defaults to 64 when non-positive
(the Go argument is an `int`). -/
def newBroker (α : Type) (bufferSize : Int) : Broker α :=
  ⟨[], 0, if bufferSize ≤ 0 then 64 else bufferSize.toNat⟩

/-- Go `StatsStreamBroker.Publish`: for every subscriber, a non-blocking
channel send — enqueue when the buffer has free capacity, otherwise drop
for that subscriber only.  (The `select`/`default` never waits; the
embedding is a total function on the queue states.) -/
def brokerPublish {α : Type} (b : Broker α) (e : α) : Broker α :=
  { b with
    subscribers := b.subscribers.map (fun s =>
      (s.1, if s.2.length < b.bufferSize then s.2 ++ [e] else s.2)) }

/-- Go `StatsStreamBroker.Subscribe`: register a fresh empty queue under
the next id.  Returns the new state and the subscriber id. -/
def brokerSubscribe {α : Type} (b : Broker α) : Broker α × Nat :=
  ({ b with subscribers := b.subscribers ++ [(b.nextID, [])], nextID := b.nextID + 1 },
   b.nextID)

/-! ## Analytics sink (internal/analytics/analytics.go, `Logger.flush`) -/

/-- Go `analytics.Event` (`Timestamp` outside the pure model). -/
structure AnEvent where
  clientID : GoStr
  method : GoStr
  path : GoStr
  allowed : Bool
  ruleID : GoStr
  limit : Int
  remaining : Int
  responseMS : Int
  deriving DecidableEq, Repr

/-- The `logged` / `dropped` counters of `analytics.Logger`. -/
structure LoggerCounters where
  eventsLogged : Int
  eventsDropped : Int
  deriving DecidableEq, Repr

/-- The database behaviour one `flush` run observes: whether `BeginTx`,
`PrepareContext` and `Commit` succeed, and per-row insert success by
batch position. -/
structure FlushEnv where
  dbPresent : Bool
  beginOk : Bool
  prepOk : Bool
  insertOk : Nat → Bool
  commitOk : Bool

/-- Go `Logger.flush`: empty batches and a nil DB are skipped; a failed
begin, prepare or commit returns with NO counter change; per-row insert
failures are logged and skipped; on commit `eventsLogged` grows by the
FULL batch length. -/
def flush (env : FlushEnv) (events : List AnEvent) (c : LoggerCounters) :
    LoggerCounters :=
  if events.length = 0 then c
  else if ¬ env.dbPresent then c
  else if ¬ env.beginOk then c
  else if ¬ env.prepOk then c
  else if ¬ env.commitOk then c
  else { c with eventsLogged := c.eventsLogged + events.length }

/-- The number of rows actually inserted by one `flush` run (rows whose
`ExecContext` succeeded) — what the specification says `logged` should
grow by. -/
def flushInsertedRows (env : FlushEnv) (events : List AnEvent) : Nat :=
  ((List.range events.length).filter (fun i => env.insertOk i)).length

/-! ## Redis storage closed-state machine (`part_026`, `RedisStorage`) -/

/-- The `closed` flag of Go `RedisStorage` (guarded by `rs.mu`). -/
structure RedisState where
  closed : Bool
  deriving DecidableEq, Repr

/-- Storage errors relevant to the closed-state machine:
`storage.ErrStorageClosed` versus a wrapped client error. -/
inductive StorageErr
  | storageClosed
  | wrapped
  deriving DecidableEq, Repr

/-- Outcome of one storage call: the result, the state after the call,
and whether the Redis client was contacted. -/
structure StorageCall (α : Type) where
  result : Except StorageErr α
  state : RedisState
  contactedStore : Bool
  deriving Repr

/-- Go `RedisStorage.Increment`: under the read lock, a closed store
answers `ErrStorageClosed` without touching the client; otherwise the
script runs and an error is wrapped. -/
def rsIncrement (st : RedisState) (reply : Except Unit Int) : StorageCall Int :=
  if st.closed then ⟨.error .storageClosed, st, false⟩
  else
    match reply with
    | .ok n => ⟨.ok n, st, true⟩
    | .error _ => ⟨.error .wrapped, st, true⟩

/-- Go `RedisStorage.GetCount` (same closed-state discipline;
`redis.Nil` maps to 0 in the open case). -/
def rsGetCount (st : RedisState) (reply : Except Unit (Option Int)) :
    StorageCall Int :=
  if st.closed then ⟨.error .storageClosed, st, false⟩
  else
    match reply with
    | .ok (some n) => ⟨.ok n, st, true⟩
    | .ok none => ⟨.ok 0, st, true⟩
    | .error _ => ⟨.error .wrapped, st, true⟩

/-- Go `RedisStorage.Reset` (same closed-state discipline). -/
def rsReset (st : RedisState) (reply : Except Unit Unit) : StorageCall Unit :=
  if st.closed then ⟨.error .storageClosed, st, false⟩
  else
    match reply with
    | .ok _ => ⟨.ok (), st, true⟩
    | .error _ => ⟨.error .wrapped, st, true⟩

/-- Go `RedisStorage.Ping` (same closed-state discipline). -/
def rsPing (st : RedisState) (reply : Except Unit Unit) : StorageCall Unit :=
  if st.closed then ⟨.error .storageClosed, st, false⟩
  else
    match reply with
    | .ok _ => ⟨.ok (), st, true⟩
    | .error _ => ⟨.error .wrapped, st, true⟩

/-- Go `RedisStorage.Close`: an already-closed store returns nil at once;
otherwise the flag is set and the client closed (whose error is passed
through). -/
def rsClose (st : RedisState) (clientCloseErr : Option StorageErr) :
    StorageCall Unit :=
  if st.closed then ⟨.ok (), st, false⟩
  else
    match clientCloseErr with
    | none => ⟨.ok (), ⟨true⟩, true⟩
    | some e => ⟨.error e, ⟨true⟩, true⟩

/-! ## Specification-side definitions

These definitions follow the wording of the specification (not the code)
and exist to be compared with the code-derived definitions above. -/

/-- Modelled from the spec: the client-identity rule as the specification
states it — the leftmost NON-EMPTY comma-separated token of a present,
non-empty `X-Forwarded-For` when trusted; otherwise the host part from
`net.SplitHostPort`; the literal `"unknown"` on any failure. -/
def clientKeySpecC7 (trustForwardedFor : Bool) (xff remoteAddr : GoStr) : GoStr :=
  if trustForwardedFor ∧ xff ≠ [] then
    match (goSplit ',' xff).find? (fun tok => trimSpace tok ≠ []) with
    | some tok => trimSpace tok
    | none => str "unknown"
  else
    match splitHostPort remoteAddr with
    | .ok (host, _) => host
    | .error _ => str "unknown"

/-- `s` when non-empty, otherwise the fallback. -/
def nonEmptyOr (s d : GoStr) : GoStr := if s ≠ [] then s else d

/-- The amended client-identity rule, spec-style: the FIRST comma token of
the trimmed `X-Forwarded-For` (only if that token trims to non-empty);
otherwise the non-empty host from `net.SplitHostPort` of the trimmed
remote address; otherwise the trimmed remote address itself when
non-empty; otherwise `"unknown"`. -/
def clientKeyAmendedSpec (trustForwardedFor : Bool) (r : GwRequest) : GoStr :=
  let firstTok := trimSpace ((goSplit ',' (trimSpace r.xff)).headD [])
  if trustForwardedFor ∧ trimSpace r.xff ≠ [] ∧ firstTok ≠ [] then firstTok
  else
    match splitHostPort (trimSpace r.remoteAddr) with
    | .ok (host, _) =>
      if host ≠ [] then host else nonEmptyOr (trimSpace r.remoteAddr) (str "unknown")
    | .error _ => nonEmptyOr (trimSpace r.remoteAddr) (str "unknown")

/-- Compile a single pattern and match a path against it (the anchor flag
as `compile` computes it). -/
def patMatch (pattern path : GoStr) : Option (List GoStr) :=
  match patternToRegex pattern with
  | .ok (segs, _) => matchSegs segs (! endsInStar pattern) path
  | .error _ => none

/-- Whether a segment atom produces a capture group. -/
def isCapSeg : Seg → Bool
  | .lit _ => false
  | .param _ => true
  | .wild => true

/-- The capture name a segment atom contributes (`*` for the wildcard). -/
def capName : Seg → GoStr
  | .lit _ => []
  | .param n => n
  | .wild => ['*']

/-- The full path a chain of literal segments renders to
(`/s₁/s₂/…/sₙ`). -/
def renderLits : List GoStr → GoStr
  | [] => []
  | s :: rest => '/' :: s ++ renderLits rest

/-- Validity of one pattern segment, as the specification words it: a
wildcard only as the last segment; a parameter segment carries a
well-formed, non-empty name; literal segments are unrestricted. -/
def segValidSpec (isLast : Bool) (seg : GoStr) : Bool :=
  if seg = ['*'] then isLast
  else if seg.head? = some ':' then isValidIdentifier seg.tail
  else true

/-- Validity of the segment list (each segment judged with its
last-position flag). -/
def segsValidSpec : List GoStr → Bool
  | [] => true
  | [seg] => segValidSpec true seg
  | seg :: rest => segValidSpec false seg && segsValidSpec rest

/-- The rule invariants `rules.compile` actually enforces, as a spec-side
predicate: non-empty pattern starting with `/`, valid segments, and the
`identifyBy = header ⇒ headerName ≠ ""` obligation.  (Limit and window
positivity are NOT among them.) -/
def ruleCompileValid (r : Rule) : Bool :=
  decide (r.pattern ≠ []) && decide (r.pattern.head? = some '/') &&
    segsValidSpec ((goSplit '/' r.pattern).drop 1) &&
    !(decide (r.identifyBy = identifyByHeader) && decide (r.headerName = []))

/-! ## Concrete values used by witnesses and counterexamples -/

/-- A rule with a valid pattern but non-positive limit and window. -/
def ruleBadLimit : Rule :=
  ⟨str "r", str "/a", [], 0, 0, 0, str "ip", []⟩

/-- The example rule of spec scenario E1. -/
def ruleE1 : Rule :=
  ⟨str "R", str "/api/users/:id", [str "GET"], 0, 2, 60000000000, str "ip", []⟩

/-- `ruleE1` compiled by `compileRule`. -/
def crE1 : CompiledRule :=
  ⟨ruleE1, [Seg.lit (str "api"), Seg.lit (str "users"), Seg.param (str "id")],
   true, [str "id"], some [str "GET"]⟩

/-- A one-rule matcher used to exercise the gateway embedding. -/
def matcherE1 : Matcher := ⟨[crE1]⟩

/-- A sample inbound request for `ruleE1`. -/
def reqE1 : GwRequest :=
  ⟨str "GET", str "/api/users/42", [], str "1.2.3.4:5678", []⟩

/-- A rule whose pattern lacks the leading slash. -/
def ruleBadPattern : Rule :=
  ⟨str "bad", str "no-slash", [], 0, 1, 1, str "ip", []⟩

/-- An analytics event with zeroed payload. -/
def anEv0 : AnEvent := ⟨[], [], [], true, [], 0, 0, 0⟩

/-- A flush environment whose `BeginTx` fails. -/
def envBeginFail : FlushEnv := ⟨true, false, true, fun _ => true, true⟩

/-- A flush environment that commits but whose second row insert fails. -/
def envRowFail : FlushEnv := ⟨true, true, true, fun i => i = 0, true⟩

theorem isPre_iff (s p : GoStr) : isPre s p = true ↔ ∃ t, p = s ++ t := by
  induction s generalizing p with
  | nil => simp [isPre]
  | cons a s ih =>
    cases p with
    | nil => simp [isPre]
    | cons b p =>
      simp only [isPre, Bool.and_eq_true, decide_eq_true_eq, ih]
      constructor
      · rintro ⟨rfl, t, rfl⟩; exact ⟨t, rfl⟩
      · rintro ⟨t, ht⟩
        cases ht
        exact ⟨rfl, t, rfl⟩

/-! ## C10 — Redis storage closed-state machine -/

/-- C10: after `Close` the closed flag is set; a second `Close` returns
nil without contacting the client; `Increment`, `GetCount`, `Reset` and
`Ping` on a closed store answer `ErrStorageClosed` without contacting the
store; and no operation ever clears the flag. -/
theorem redis_storage_closed_machine :
    ∀ (st : RedisState) (rInc : Except Unit Int) (rGet : Except Unit (Option Int))
      (rRes rPng : Except Unit Unit) (c1 c2 : Option StorageErr),
      ((rsClose st c1).state.closed = true) ∧
      (rsClose ((rsClose st c1).state) c2 = ⟨.ok (), (rsClose st c1).state, false⟩) ∧
      (st.closed = true →
        rsIncrement st rInc = ⟨.error .storageClosed, st, false⟩ ∧
        rsGetCount st rGet = ⟨.error .storageClosed, st, false⟩ ∧
        rsReset st rRes = ⟨.error .storageClosed, st, false⟩ ∧
        rsPing st rPng = ⟨.error .storageClosed, st, false⟩) ∧
      ((rsIncrement st rInc).state = st ∧ (rsGetCount st rGet).state = st ∧
        (rsReset st rRes).state = st ∧ (rsPing st rPng).state = st) := by
  intro st rInc rGet rRes rPng c1 c2
  have hclose : (rsClose st c1).state.closed = true := by
    by_cases h : st.closed = true
    · simp [rsClose, h]
    · cases c1 <;> simp [rsClose, h]
  refine ⟨hclose, ?_, ?_, ?_⟩
  · rcases hs : (rsClose st c1).state with ⟨b⟩
    have hb : b = true := by
      have := hclose
      rw [hs] at this
      exact this
    subst hb
    simp [rsClose]
  · intro h
    refine ⟨?_, ?_, ?_, ?_⟩ <;> simp [rsIncrement, rsGetCount, rsReset, rsPing, h]
  · by_cases h : st.closed = true
    · refine ⟨?_, ?_, ?_, ?_⟩ <;>
        simp [rsIncrement, rsGetCount, rsReset, rsPing, h]
    · refine ⟨?_, ?_, ?_, ?_⟩
      · cases rInc <;> simp [rsIncrement, h]
      · rcases rGet with _ | n
        · simp [rsGetCount, h]
        · cases n <;> simp [rsGetCount, h]
      · cases rRes <;> simp [rsReset, h]
      · cases rPng <;> simp [rsPing, h]

/-- C10 witness: the theorem at a concrete closed state. -/
theorem redis_storage_closed_machine_witness :
    (RedisState.mk true).closed = true ∧
    rsIncrement ⟨true⟩ (.ok 5) = ⟨.error .storageClosed, ⟨true⟩, false⟩ ∧
    rsClose ((rsClose ⟨false⟩ none).state) none = ⟨.ok (), (rsClose ⟨false⟩ none).state, false⟩ :=
  ⟨rfl,
   ((redis_storage_closed_machine ⟨true⟩ (.ok 5) (.ok none) (.ok ()) (.ok ())
      none none).2.2.1 rfl).1,
   (redis_storage_closed_machine ⟨false⟩ (.ok 5) (.ok none) (.ok ()) (.ok ())
      none none).2.1⟩

/-! ## C8 — broker publish fan-out -/

/-- C8: `Publish` transforms every subscriber queue pointwise: a
subscriber with free capacity receives the event at the tail of its
queue, a full subscriber keeps its queue unchanged (the event is dropped
for it alone), ids and capacity are untouched, and publish is a total
function of the broker state (the `select`/`default` send never waits on
a subscriber). -/
theorem broker_publish_fanout :
    ∀ (α : Type) (b : Broker α) (e : α),
      (brokerPublish b e).nextID = b.nextID ∧
      (brokerPublish b e).bufferSize = b.bufferSize ∧
      ∀ i : Nat,
        (brokerPublish b e).subscribers[i]? =
          (b.subscribers[i]?).map
            (fun s => (s.1, if s.2.length < b.bufferSize then s.2 ++ [e] else s.2)) := by
  intro α b e
  refine ⟨rfl, rfl, ?_⟩
  intro i
  simp [brokerPublish]

/-! ## C3 — analytics flush accounting -/

/-- C3 counterexample: with a failing `BeginTx` and a one-event batch the
dropped counter stays 0 (the claim requires 0 + 1); with a committed
batch of two events of which only one row inserts, `logged` grows by 2,
not by the number of successfully inserted rows (1). -/
theorem flush_counter_divergence :
    flush envBeginFail [anEv0] ⟨0, 0⟩ = ⟨0, 0⟩ ∧
    (0 : Int) ≠ 0 + 1 ∧
    flush envRowFail [anEv0, anEv0] ⟨0, 0⟩ = ⟨2, 0⟩ ∧
    flushInsertedRows envRowFail [anEv0, anEv0] = 1 ∧
    (2 : Int) ≠ 1 := by
  refine ⟨by decide, by decide, by decide, by decide, by decide⟩

/-- C3 (amended): a failed begin, prepare or commit leaves BOTH counters
unchanged (in particular `dropped` is not incremented), an empty batch is
a no-op, and a committed flush increases `logged` by the FULL batch
length regardless of per-row insert failures, leaving `dropped`
unchanged. -/
theorem flush_accounting :
    ∀ (env : FlushEnv) (events : List AnEvent) (c : LoggerCounters),
      (events = [] → flush env events c = c) ∧
      (env.beginOk = false → flush env events c = c) ∧
      (env.prepOk = false → flush env events c = c) ∧
      (env.commitOk = false → flush env events c = c) ∧
      (events ≠ [] → env.dbPresent = true → env.beginOk = true →
        env.prepOk = true → env.commitOk = true →
        flush env events c =
          { c with eventsLogged := c.eventsLogged + events.length }) := by
  intro env events c
  refine ⟨?_, ?_, ?_, ?_, ?_⟩
  · intro h; simp [flush, h]
  · intro h; unfold flush; split
    · rfl
    · split
      · rfl
      · simp [h]
  · intro h; unfold flush; split
    · rfl
    · split
      · rfl
      · split
        · rfl
        · simp [h]
  · intro h; unfold flush; split
    · rfl
    · split
      · rfl
      · split
        · rfl
        · split
          · rfl
          · simp [h]
  · intro h hdb hb hp hc2
    have hne : ¬ events.length = 0 := by
      simpa [List.length_eq_zero] using h
    simp [flush, hne, hdb, hb, hp, hc2]

/-- C3 witness: the amended theorem applied at concrete inputs. -/
theorem flush_accounting_witness :
    envBeginFail.beginOk = false ∧
    flush envBeginFail [anEv0] ⟨3, 4⟩ = ⟨3, 4⟩ ∧
    flush envRowFail [anEv0] ⟨3, 4⟩ = ⟨3 + ([anEv0] : List AnEvent).length, 4⟩ :=
  ⟨rfl, (flush_accounting envBeginFail [anEv0] ⟨3, 4⟩).2.1 rfl,
   (flush_accounting envRowFail [anEv0] ⟨3, 4⟩).2.2.2.2 (by decide) rfl rfl rfl rfl⟩

/-! ## C1 — weighted two-bucket sliding-window script -/

set_option maxRecDepth 4000 in
/-- C1 counterexample, two divergences from the claim.  (i) Floating
point: at `prev = 5, W = 1000 ms, elapsed = 800 ms` the script's double
arithmetic estimates 0 (`1 - 800/1000` rounds to
`0.19999999999999996`), while the claim's exact formula
`⌊C_prev·(1−elapsed/W)⌋ + C_cur` gives 1 — so at `limit = 1` the script
ALLOWS and increments where the claim demands denial.  (ii) TTL: on an
allowed increment of an EXISTING current bucket (counter 1, remaining
TTL 500 ms) the script does not touch the TTL, while the claim requires
it to be set to `2·W`. -/
theorem sliding_window_ttl_counterexample :
    estimatedCount ⟨none, none, some 5⟩ 1000 (800 % 1000) = 0 ∧
    estimatedCountExact ⟨none, none, some 5⟩ 1000 (800 % 1000) = 1 ∧
    (1 : Nat) ≤ 1 ∧
    (luaSlidingWindowCheck ⟨none, none, some 5⟩ 1000 (800 % 1000) 1).1.allowed
      = true ∧
    (luaSlidingWindowCheck ⟨none, none, some 5⟩ 1000 (800 % 1000) 1).2.cur
      = some 1 ∧
    (luaSlidingWindowCheck ⟨some 1, some 500, none⟩ 1000 (0 % 1000) 10).1.allowed = true ∧
    (luaSlidingWindowCheck ⟨some 1, some 500, none⟩ 1000 (0 % 1000) 10).2.curTTLms = some 500 ∧
    (some 500 : Option Nat) ≠ some (2 * 1000) := by
  refine ⟨by decide, by decide, by decide, by decide, by decide, by decide,
    by decide, by decide⟩

/-- C1 (amended): with `elapsed = t mod W`, the script computes the
estimate `E = floor(C_prev · (1 − elapsed/W)) + C_cur` in IEEE-754
double arithmetic (`estimatedCount`), which can fall below the exact
integer formula; when `E ≥ limit` it denies and leaves the store
untouched; otherwise it increments `C_cur` (creating it as 1 when
absent), allows, and sets the current bucket TTL to `2·W` ONLY when the
increment created the counter (an existing bucket keeps its TTL). -/
theorem sliding_window_check_spec (st : WindowState) (t W limit : Nat) (_hW : 0 < W) :
    (limit ≤ estimatedCount st W (t % W) →
      luaSlidingWindowCheck st W (t % W) limit =
        (⟨false, st.cur.getD 0, st.prev.getD 0⟩, st)) ∧
    (estimatedCount st W (t % W) < limit →
      luaSlidingWindowCheck st W (t % W) limit =
        (⟨true, st.cur.getD 0 + 1, st.prev.getD 0⟩,
         ⟨some (st.cur.getD 0 + 1),
          if st.cur.getD 0 + 1 = 1 then some (W * 2) else st.curTTLms,
          st.prev⟩)) := by
  refine ⟨?_, ?_⟩
  · intro h
    simp [luaSlidingWindowCheck, h]
  · intro h
    have h' : ¬ limit ≤ estimatedCount st W (t % W) := by omega
    simp [luaSlidingWindowCheck, h']

set_option maxRecDepth 4000 in
/-- C1 witness: the amended theorem at concrete inputs (a deny that
leaves the state alone, and an allow that creates the bucket with TTL
`2·W`). -/
theorem sliding_window_check_spec_witness :
    (0 : Nat) < 1000 ∧
    luaSlidingWindowCheck ⟨none, none, some 4⟩ 1000 (500 % 1000) 2 =
      (⟨false, 0, 4⟩, ⟨none, none, some 4⟩) ∧
    luaSlidingWindowCheck ⟨none, none, none⟩ 1000 (0 % 1000) 3 =
      (⟨true, 0 + 1, 0⟩,
       ⟨some (0 + 1), if (0 : Nat) + 1 = 1 then some (1000 * 2) else none, none⟩) :=
  ⟨by decide,
   (sliding_window_check_spec ⟨none, none, some 4⟩ 500 1000 2 (by decide)).1 (by decide),
   (sliding_window_check_spec ⟨none, none, none⟩ 0 1000 3 (by decide)).2 (by decide)⟩

/-! ## C2 — gateway fail-open on store error -/

/-- Every outcome of the fallback block is a forward or a 429. -/
theorem serveFallback_action (gp : GatewayProxy) (r : GwRequest) (cid : GoStr)
    (gc : Except Unit StoreResult) :
    (serveFallback gp r cid gc).action = .forward ∨
      (serveFallback gp r cid gc).action = .reject 429 := by
  unfold serveFallback
  by_cases hl : gp.hasLimiter = true
  · rcases gc with _ | res
    · simp [hl]
    · by_cases ha : res.allowed = true <;> simp [hl, ha]
  · simp [hl]

/-- C2: when the sliding-window check (per-rule path) or `limiter.Allow`
(global fallback) reports a store-unavailable error, the gateway fails
open — it publishes an allowed event with zero limit and remaining and
status 200, sets no rate-limit headers, and forwards the request; and no
input ever makes the handler answer with anything but a forward or a
429 (in particular never a 500). -/
theorem gateway_fail_open :
    ∀ (gp : GatewayProxy) (r : GwRequest) (m : Matcher) (mt : MatchResult)
      (ruleCheck globalCheck : Except Unit StoreResult),
      (gp.matcher = some m → gp.hasStore = true →
        matcherMatch m r.method r.path = some mt →
        serveHTTP gp r (.error ()) globalCheck =
          ⟨.forward, [], none,
           [⟨clientKey gp.trustProxy r, r.method, r.path, true, 0, 0, 200⟩]⟩) ∧
      (gp.hasLimiter = true →
        (gp.matcher = none ∨ gp.hasStore = false ∨
          (gp.matcher = some m ∧ matcherMatch m r.method r.path = none)) →
        serveHTTP gp r ruleCheck (.error ()) =
          ⟨.forward, [], none,
           [⟨clientKey gp.trustProxy r, r.method, r.path, true, 0, 0, 200⟩]⟩) ∧
      ((serveHTTP gp r ruleCheck globalCheck).action = .forward ∨
        (serveHTTP gp r ruleCheck globalCheck).action = .reject 429) := by
  intro gp r m mt ruleCheck globalCheck
  rcases gp with ⟨gm, gs, gl, gt⟩
  refine ⟨?_, ?_, ?_⟩
  · intro h1 h2 h3
    subst h1
    subst h2
    simp [serveHTTP, h3]
  · intro hl hcase
    rcases hcase with h | h | ⟨h1, h2⟩
    · subst h
      simp [serveHTTP, serveFallback, hl]
    · subst h
      cases gm <;> simp [serveHTTP, serveFallback, hl]
    · subst h1
      cases gs <;> simp [serveHTTP, serveFallback, hl, h2]
  · rcases gm with _ | m'
    · exact serveFallback_action ⟨none, gs, gl, gt⟩ r _ globalCheck
    · cases gs
      · exact serveFallback_action ⟨some m', false, gl, gt⟩ r _ globalCheck
      · rcases hm : matcherMatch m' r.method r.path with _ | mt'
        · simpa [serveHTTP, hm] using
            serveFallback_action ⟨some m', true, gl, gt⟩ r
              (clientKey gt r) globalCheck
        · rcases ruleCheck with _ | res
          · simp [serveHTTP, hm]
          · by_cases ha : res.allowed = true <;> simp [serveHTTP, hm, ha]

/-- C2 witness: the fail-open equation at a concrete matcher, request and
store error. -/
theorem gateway_fail_open_witness :
    matcherMatch matcherE1 reqE1.method reqE1.path =
      some ⟨ruleE1, [(str "id", str "42")]⟩ ∧
    serveHTTP ⟨some matcherE1, true, true, false⟩ reqE1 (.error ())
        (.ok ⟨1, 2, 1, 0, true⟩) =
      ⟨.forward, [], none,
       [⟨clientKey false reqE1, reqE1.method, reqE1.path, true, 0, 0, 200⟩]⟩ :=
  ⟨by rfl,
   (gateway_fail_open ⟨some matcherE1, true, true, false⟩ reqE1 matcherE1
      ⟨ruleE1, [(str "id", str "42")]⟩ (.error ()) (.ok ⟨1, 2, 1, 0, true⟩)).1
     rfl rfl (by rfl)⟩

/-! ## C6 — matcher construction validation -/

/-- `Except.isOk` characterization. -/
theorem except_isOk_iff {ε α : Type} (e : Except ε α) :
    e.isOk = true ↔ ∃ a, e = .ok a := by
  cases e <;> simp [Except.isOk, Except.toBool]

/-- One step of the segment scan, at the `isOk` level: the head segment
must pass its own validity check (with its last-position flag) and the
tail scan must succeed. -/
theorem patternSegsScan_isOk_cons (seg : GoStr) (rest : List GoStr) :
    (patternSegsScan (seg :: rest)).isOk =
      (segValidSpec rest.isEmpty seg && (patternSegsScan rest).isOk) := by
  by_cases hstar : seg = ['*']
  · subst hstar
    cases rest with
    | nil => rfl
    | cons a l =>
      simp [patternSegsScan, segValidSpec, Except.isOk, Except.toBool]
  · by_cases hcolon : seg.head? = some ':'
    · by_cases hname : seg.tail = []
      · have hv : isValidIdentifier seg.tail = false := by rw [hname]; rfl
        simp [patternSegsScan, segValidSpec, hstar, hcolon, hname, hv,
          show isValidIdentifier ([] : GoStr) = false from rfl,
          Except.isOk, Except.toBool]
      · by_cases hv : isValidIdentifier seg.tail = true
        · cases hs : patternSegsScan rest with
          | error e =>
            simp [patternSegsScan, segValidSpec, hstar, hcolon, hname, hv, hs,
              Except.isOk, Except.toBool]
          | ok p =>
            rcases p with ⟨ss, ns⟩
            simp [patternSegsScan, segValidSpec, hstar, hcolon, hname, hv, hs,
              Except.isOk, Except.toBool]
        · have hv' : isValidIdentifier seg.tail = false := by simpa using hv
          simp [patternSegsScan, segValidSpec, hstar, hcolon, hname, hv',
            Except.isOk, Except.toBool]
    · cases hs : patternSegsScan rest with
      | error e =>
        simp [patternSegsScan, segValidSpec, hstar, hcolon, hs,
          Except.isOk, Except.toBool]
      | ok p =>
        rcases p with ⟨ss, ns⟩
        simp [patternSegsScan, segValidSpec, hstar, hcolon, hs,
          Except.isOk, Except.toBool]

/-- One step of the spec-side segment validity. -/
theorem segsValidSpec_cons (seg : GoStr) (rest : List GoStr) :
    segsValidSpec (seg :: rest) =
      (segValidSpec rest.isEmpty seg && segsValidSpec rest) := by
  cases rest with
  | nil => simp [segsValidSpec]
  | cons a l => rfl

/-- The segment scan succeeds exactly on spec-valid segment lists. -/
theorem patternSegsScan_isOk (segs : List GoStr) :
    (patternSegsScan segs).isOk = segsValidSpec segs := by
  induction segs with
  | nil => rfl
  | cons seg rest ih =>
    rw [patternSegsScan_isOk_cons, segsValidSpec_cons, ih]

/-- `patternToRegex` succeeds exactly on non-empty patterns that start
with `/` and whose segments are spec-valid. -/
theorem patternToRegex_isOk (pattern : GoStr) :
    (patternToRegex pattern).isOk =
      (decide (pattern ≠ []) && decide (pattern.head? = some '/') &&
        segsValidSpec ((goSplit '/' pattern).drop 1)) := by
  cases pattern with
  | nil => rfl
  | cons c rest =>
    by_cases hc : c = '/'
    · subst hc
      rw [show patternToRegex ('/' :: rest) =
          patternSegsScan ((goSplit '/' ('/' :: rest)).drop 1) from by
        simp [patternToRegex]]
      rw [patternSegsScan_isOk]
      simp
    · simp [patternToRegex, hc, Except.isOk, Except.toBool]

/-- `compileAll` succeeds when every rule compiles. -/
theorem compileAll_isOk (rl : List Rule)
    (h : ∀ r ∈ rl, (compileRule r).isOk = true) :
    (compileAll rl).isOk = true := by
  induction rl with
  | nil => rfl
  | cons r rest ih =>
    obtain ⟨cr, hcr⟩ := (except_isOk_iff _).1 (h r (List.mem_cons_self r rest))
    have hrest := ih (fun x hx => h x (List.mem_cons_of_mem r hx))
    obtain ⟨crs, hcrs⟩ := (except_isOk_iff _).1 hrest
    simp [compileAll, hcr, hcrs, Except.isOk, Except.toBool]

/-- `compileAll` stops at the first failing rule and names it. -/
theorem compileAll_first_error (pre : List Rule) (r : Rule) (post : List Rule)
    (hok : ∀ x ∈ pre, (compileRule x).isOk = true)
    (hbad : (compileRule r).isOk = false) :
    ∃ msg, compileAll (pre ++ r :: post) = .error ⟨r.name, msg⟩ := by
  induction pre with
  | nil =>
    rcases he : compileRule r with e | cr
    · exact ⟨e, by simp [compileAll, he]⟩
    · rw [he] at hbad
      simp [Except.isOk, Except.toBool] at hbad
  | cons x pre ih =>
    obtain ⟨cr, hcr⟩ := (except_isOk_iff _).1 (hok x (List.mem_cons_self x pre))
    obtain ⟨msg, hmsg⟩ := ih (fun y hy => hok y (List.mem_cons_of_mem x hy))
    exact ⟨msg, by simp [compileAll, hcr, hmsg]⟩

/-- `compile` succeeds exactly on rules passing the pattern and
header-name invariants (and on nothing else — in particular limit and
window are not inspected). -/
theorem compileRule_isOk (r : Rule) :
    (compileRule r).isOk = ruleCompileValid r := by
  by_cases hp : r.pattern = []
  · have hrv : ruleCompileValid r = false := by simp [ruleCompileValid, hp]
    rw [hrv]
    simp [compileRule, hp, Except.isOk, Except.toBool]
  · by_cases hh : r.identifyBy = identifyByHeader ∧ r.headerName = []
    · have hrv : ruleCompileValid r = false := by
        simp [ruleCompileValid, hh.1, hh.2]
      rw [hrv]
      simp [compileRule, hp, hh, Except.isOk, Except.toBool]
    · have hrv : ruleCompileValid r =
          ((patternToRegex r.pattern).isOk &&
            !(decide (r.identifyBy = identifyByHeader) &&
              decide (r.headerName = []))) := by
        unfold ruleCompileValid
        rw [patternToRegex_isOk]
      have hh' : (!(decide (r.identifyBy = identifyByHeader) &&
          decide (r.headerName = []))) = true := by
        simp only [Bool.not_eq_true', Bool.and_eq_false_iff, decide_eq_false_iff_not]
        by_cases h1 : r.identifyBy = identifyByHeader
        · exact Or.inr (fun h2 => hh ⟨h1, h2⟩)
        · exact Or.inl h1
      rw [hrv, hh', Bool.and_true]
      cases hpr : patternToRegex r.pattern with
      | error e => simp [compileRule, hp, hh, hpr, Except.isOk, Except.toBool]
      | ok p =>
        rcases p with ⟨segs, names⟩
        simp [compileRule, hp, hh, hpr, Except.isOk, Except.toBool]

/-- C6 counterexample: a rule with limit 0 and window 0 but a valid
pattern is ACCEPTED by matcher construction; the claim says construction
must fail on non-positive limit or window. -/
theorem matcher_accepts_nonpositive_limit :
    (rulesNew [ruleBadLimit]).isOk = true ∧
    ruleBadLimit.limit ≤ 0 ∧ ruleBadLimit.window ≤ 0 := by
  refine ⟨by rfl, by decide, by decide⟩

/-- C6 (amended): matcher construction succeeds exactly when every rule
passes the pattern and header-name checks — `compile` validates the
pattern shape (leading `/`, terminal-only wildcard, well-formed parameter
names) and the `identifyBy=header ⇒ headerName ≠ ""` obligation, and
`rules.New` fails naming the FIRST offending rule; positivity of limit
and window is NOT checked by the matcher, but `limiter.New` rejects
non-positive values. -/
theorem matcher_construction_validation :
    (∀ rl : List Rule, (∀ r ∈ rl, (compileRule r).isOk = true) →
      (rulesNew rl).isOk = true) ∧
    (∀ (pre : List Rule) (r : Rule) (post : List Rule),
      (∀ x ∈ pre, (compileRule x).isOk = true) →
      (compileRule r).isOk = false →
      ∃ msg, rulesNew (pre ++ r :: post) = .error ⟨r.name, msg⟩) ∧
    (∀ r : Rule, (compileRule r).isOk = ruleCompileValid r) ∧
    (∀ (hs : Bool) (limit window : Int),
      (limiterNew hs limit window).isOk = true ↔
        hs = true ∧ 0 < limit ∧ 0 < window) := by
  refine ⟨?_, ?_, ?_, ?_⟩
  · intro rl h
    obtain ⟨crs, hcrs⟩ := (except_isOk_iff _).1 (compileAll_isOk rl h)
    simp [rulesNew, hcrs, Except.isOk, Except.toBool]
  · intro pre r post hok hbad
    obtain ⟨msg, hmsg⟩ := compileAll_first_error pre r post hok hbad
    exact ⟨msg, by simp [rulesNew, hmsg]⟩
  · exact compileRule_isOk
  · intro hs limit window
    by_cases h1 : hs = true
    · by_cases h2 : limit ≤ 0
      · refine iff_of_false ?_ (fun h => absurd h.2.1 (by omega))
        simp [limiterNew, h1, h2, Except.isOk, Except.toBool]
      · by_cases h3 : window ≤ 0
        · refine iff_of_false ?_ (fun h => absurd h.2.2 (by omega))
          simp [limiterNew, h1, h2, h3, Except.isOk, Except.toBool]
        · refine iff_of_true ?_ ⟨h1, by omega, by omega⟩
          simp [limiterNew, h1, h2, h3, Except.isOk, Except.toBool]
    · refine iff_of_false ?_ (fun h => h1 h.1)
      simp [limiterNew, h1, Except.isOk, Except.toBool]

/-- C6 witness: the amended theorem at concrete rule lists — a valid
one-rule set compiles; appending a rule with a slash-less pattern makes
construction fail naming that rule. -/
theorem matcher_construction_validation_witness :
    (rulesNew [ruleE1]).isOk = true ∧
    (∃ msg, rulesNew [ruleE1, ruleBadPattern] = .error ⟨ruleBadPattern.name, msg⟩) :=
  ⟨matcher_construction_validation.1 [ruleE1] (by decide),
   matcher_construction_validation.2.1 [ruleE1] ruleBadPattern [] (by decide)
     (by decide)⟩

/-! ## C7 — client identity derivation -/

/-- `goSplit` always returns a non-empty list (Go `strings.Split`). -/
theorem goSplit_ne_nil (sep : Char) (s : GoStr) : goSplit sep s ≠ [] := by
  induction s with
  | nil => simp [goSplit]
  | cons c rest ih =>
    by_cases hc : c = sep
    · simp [goSplit, hc]
    · cases hs : goSplit sep rest with
      | nil => exact absurd hs ih
      | cons a l => simp [goSplit, hc, hs]

/-- C7 counterexample: (i) with `X-Forwarded-For = " ,1.2.3.4"` the
leftmost NON-EMPTY token is `1.2.3.4`, but the code only inspects the
first token and, finding it blank, falls back to the socket host
`9.9.9.9`; (ii) with a port-less remote address `1.2.3.4` the host parse
fails and the claim prescribes `"unknown"`, but the code returns the
trimmed remote address itself. -/
theorem client_key_counterexample :
    clientKeySpecC7 true (str " ,1.2.3.4") (str "9.9.9.9:80") = str "1.2.3.4" ∧
    clientKey true ⟨str "GET", str "/", str " ,1.2.3.4", str "9.9.9.9:80", []⟩ =
      str "9.9.9.9" ∧
    str "9.9.9.9" ≠ str "1.2.3.4" ∧
    clientKeySpecC7 false [] (str "1.2.3.4") = str "unknown" ∧
    clientKey false ⟨str "GET", str "/", [], str "1.2.3.4", []⟩ = str "1.2.3.4" ∧
    str "1.2.3.4" ≠ str "unknown" := by
  refine ⟨by decide, by decide, by decide, by decide, by decide, by decide⟩

/-- C7 (amended): the derived identity is the trimmed FIRST
comma-separated token of the trimmed `X-Forwarded-For` when trust is
enabled and that token is non-blank; otherwise the non-empty host from
`net.SplitHostPort` of the trimmed remote address; otherwise the trimmed
remote address itself when non-empty; otherwise the literal
`"unknown"`. -/
theorem client_key_cascade :
    ∀ (trust : Bool) (r : GwRequest), clientKey trust r = clientKeyAmendedSpec trust r := by
  intro trust r
  by_cases ht : trust = true
  · by_cases hx : trimSpace r.xff = []
    · cases hsp : splitHostPort (trimSpace r.remoteAddr) with
      | ok p =>
        rcases p with ⟨host, port⟩
        simp [clientKey, clientKeyAmendedSpec, clientKeyFromXff, nonEmptyOr,
          ht, hx, hsp]
      | error e =>
        simp [clientKey, clientKeyAmendedSpec, clientKeyFromXff, nonEmptyOr,
          ht, hx, hsp]
    · cases hp : goSplit ',' (trimSpace r.xff) with
      | nil => exact absurd hp (goSplit_ne_nil _ _)
      | cons p0 rest =>
        by_cases hcand : trimSpace p0 = []
        · cases hsp : splitHostPort (trimSpace r.remoteAddr) with
          | ok p =>
            rcases p with ⟨host, port⟩
            simp [clientKey, clientKeyAmendedSpec, clientKeyFromXff, nonEmptyOr,
              ht, hx, hp, hcand, hsp]
          | error e =>
            simp [clientKey, clientKeyAmendedSpec, clientKeyFromXff, nonEmptyOr,
              ht, hx, hp, hcand, hsp]
        · simp [clientKey, clientKeyAmendedSpec, clientKeyFromXff, nonEmptyOr,
            ht, hx, hp, hcand]
  · have ht' : trust = false := by simpa using ht
    subst ht'
    cases hsp : splitHostPort (trimSpace r.remoteAddr) with
    | ok p =>
      rcases p with ⟨host, port⟩
      simp [clientKey, clientKeyAmendedSpec, clientKeyFromXff, nonEmptyOr, hsp]
    | error e =>
      simp [clientKey, clientKeyAmendedSpec, clientKeyFromXff, nonEmptyOr, hsp]

/-! ## C5 — compiled-pattern matching semantics -/

/-- A string is a Boolean prefix of itself followed by anything. -/
theorem isPre_self_append (s u : GoStr) : isPre s (s ++ u) = true :=
  (isPre_iff s (s ++ u)).2 ⟨u, rfl⟩

/-- Literal-only anchored patterns match exactly their rendering. -/
theorem matchSegs_lits_anchored (lits : List GoStr) (path : GoStr) :
    ((matchSegs (lits.map Seg.lit) true path).isSome = true ↔
      path = renderLits lits) := by
  induction lits generalizing path with
  | nil =>
    by_cases hp : path = [] <;> simp [matchSegs, renderLits, hp]
  | cons s lits ih =>
    cases path with
    | nil => simp [matchSegs, renderLits]
    | cons c p =>
      by_cases hc : c = '/'
      · subst hc
        by_cases hpre : isPre s p = true
        · obtain ⟨t, rfl⟩ := (isPre_iff s p).1 hpre
          rw [show matchSegs ((s :: lits).map Seg.lit) true ('/' :: (s ++ t)) =
              matchSegs (lits.map Seg.lit) true ((s ++ t).drop s.length) from by
            simp [matchSegs, hpre]]
          rw [List.drop_left, ih]
          simp [renderLits]
        · rw [show matchSegs ((s :: lits).map Seg.lit) true ('/' :: p) =
              none from by simp [matchSegs, hpre]]
          simp [renderLits]
          intro hp
          rw [hp] at hpre
          exact hpre (isPre_self_append s (renderLits lits))
      · simp [matchSegs, renderLits, hc]

/-- The captures of a successful match line up with the capturing atoms,
and a parameter atom never captures the empty string. -/
theorem matchSegs_param_caps (segs : List Seg) (anchored : Bool) :
    ∀ (path : GoStr) (caps : List GoStr),
      matchSegs segs anchored path = some caps →
      List.Forall₂ (fun s c => ∀ n, s = Seg.param n → c ≠ [])
        (segs.filter isCapSeg) caps := by
  induction segs with
  | nil =>
    intro path caps h
    have hc : caps = [] := by
      by_cases ha : anchored = true
      · subst ha
        by_cases hp : path = []
        · subst hp
          have h' : some ([] : List GoStr) = some caps := h
          simpa using h'.symm
        · rw [show matchSegs [] true path = none from by
            simp [matchSegs, hp]] at h
          exact absurd h (by simp)
      · have ha' : anchored = false := by simpa using ha
        subst ha'
        have h' : some ([] : List GoStr) = some caps := h
        simpa using h'.symm
    subst hc
    simp
  | cons seg rest ih =>
    intro path caps h
    cases path with
    | nil => simp [matchSegs] at h
    | cons c p =>
      by_cases hc : c = '/'
      · subst hc
        cases seg with
        | lit s =>
          by_cases hpre : isPre s p = true
          · rw [show matchSegs (Seg.lit s :: rest) anchored ('/' :: p) =
                matchSegs rest anchored (p.drop s.length) from by
              simp [matchSegs, hpre]] at h
            simpa [isCapSeg] using ih _ _ h
          · rw [show matchSegs (Seg.lit s :: rest) anchored ('/' :: p) =
                none from by simp [matchSegs, hpre]] at h
            exact absurd h (by simp)
        | param nm =>
          by_cases hcap : p.takeWhile notSlash = []
          · rw [show matchSegs (Seg.param nm :: rest) anchored ('/' :: p) =
                none from by simp [matchSegs, hcap]] at h
            exact absurd h (by simp)
          · rw [show matchSegs (Seg.param nm :: rest) anchored ('/' :: p) =
                (matchSegs rest anchored
                    (p.drop (p.takeWhile notSlash).length)).map
                  ((p.takeWhile notSlash) :: ·) from by
              simp [matchSegs, hcap]] at h
            rcases ho : matchSegs rest anchored
                (p.drop (p.takeWhile notSlash).length) with _ | caps'
            · rw [ho] at h
              exact absurd h (by simp)
            · rw [ho] at h
              simp only [Option.map_some'] at h
              rcases h
              refine List.Forall₂.cons ?_ (by simpa [isCapSeg] using ih _ _ ho)
              intro n _
              exact hcap
        | wild =>
          by_cases hrest : rest = []
          · subst hrest
            rw [show matchSegs (Seg.wild :: ([] : List Seg)) anchored ('/' :: p) =
                some [p.takeWhile notNewline] from by simp [matchSegs]] at h
            rcases h
            exact List.Forall₂.cons (by intro n hn; cases hn) (by simp)
          · rw [show matchSegs (Seg.wild :: rest) anchored ('/' :: p) =
                none from by simp [matchSegs, hrest]] at h
            exact absurd h (by simp)
      · rw [show matchSegs (seg :: rest) anchored (c :: p) = none from by
          simp [matchSegs, hc]] at h
        exact absurd h (by simp)

/-- The capture-name list the scan collects is exactly the names of the
capturing atoms, in order. -/
theorem patternSegsScan_names :
    ∀ (segs0 : List GoStr) (segs : List Seg) (names : List GoStr),
      patternSegsScan segs0 = .ok (segs, names) →
      names = (segs.filter isCapSeg).map capName := by
  intro segs0
  induction segs0 with
  | nil =>
    intro segs names h
    simp [patternSegsScan] at h
    rcases h with ⟨h1, h2⟩
    subst h1
    subst h2
    rfl
  | cons seg rest ih =>
    intro segs names h
    by_cases hstar : seg = ['*']
    · subst hstar
      by_cases hrest : rest = []
      · subst hrest
        rw [show patternSegsScan (['*'] :: []) =
            Except.ok ([Seg.wild], [['*']]) from rfl] at h
        rcases h
        rfl
      · rw [show patternSegsScan (['*'] :: rest) =
            Except.error "wildcard (*) must be the last segment" from by
          simp [patternSegsScan, hrest]] at h
        cases h
    · by_cases hcolon : seg.head? = some ':'
      · by_cases hname : seg.tail = []
        · rw [show patternSegsScan (seg :: rest) =
              Except.error "empty parameter name in pattern" from by
            simp [patternSegsScan, hstar, hcolon, hname]] at h
          cases h
        · by_cases hv : isValidIdentifier seg.tail = true
          · cases hs : patternSegsScan rest with
            | error e =>
              rw [show patternSegsScan (seg :: rest) = Except.error e from by
                simp [patternSegsScan, hstar, hcolon, hname, hv, hs]] at h
              cases h
            | ok pr =>
              obtain ⟨ss, ns⟩ := pr
              rw [show patternSegsScan (seg :: rest) =
                  Except.ok (Seg.param seg.tail :: ss, seg.tail :: ns) from by
                simp [patternSegsScan, hstar, hcolon, hname, hv, hs]] at h
              rcases h
              have := ih ss ns hs
              simp [isCapSeg, capName, ← this]
          · rw [show patternSegsScan (seg :: rest) =
                Except.error "invalid parameter name" from by
              simp [patternSegsScan, hstar, hcolon, hname, hv]] at h
            cases h
      · cases hs : patternSegsScan rest with
        | error e =>
          rw [show patternSegsScan (seg :: rest) = Except.error e from by
            simp [patternSegsScan, hstar, hcolon, hs]] at h
          cases h
        | ok pr =>
          obtain ⟨ss, ns⟩ := pr
          rw [show patternSegsScan (seg :: rest) =
              Except.ok (Seg.lit seg :: ss, ns) from by
            simp [patternSegsScan, hstar, hcolon, hs]] at h
          have hp : Seg.lit seg :: ss = segs ∧ ns = names := by
            simpa using h
          rcases hp with ⟨rfl, h2⟩
          rw [← h2]
          have := ih ss ns hs
          simpa [isCapSeg, capName] using this

/-- C5 counterexample, two divergences from the claim.  (i) Anchor:
`/foo*` compiles to a single LITERAL segment (no wildcard atom), yet —
because the pattern string ends in `*` — the `$` anchor is omitted and
the pattern matches the strict extension `/foo*zz`; the claim allows a
missing anchor only for patterns ending in the terminal wildcard, and
requires exact patterns to match only their full path.  (ii) Wildcard
binding: Go regexp `.` does not match newline, so on the path
`/api/x\ny` the wildcard of `/api/*` binds `x`, not the whole remainder
`x\ny` the claim prescribes. -/
theorem pattern_anchor_counterexample :
    patternToRegex (str "/foo*") = .ok ([Seg.lit (str "foo*")], []) ∧
    Seg.wild ∉ [Seg.lit (str "foo*")] ∧
    endsInStar (str "/foo*") = true ∧
    patMatch (str "/foo*") (str "/foo*zz") = some [] ∧
    str "/foo*zz" ≠ str "/foo*" ∧
    patMatch (str "/api/*") (str "/api/x\ny") = some [str "x"] ∧
    str "x" ≠ str "x\ny" := by
  refine ⟨by rfl, by decide, by decide, by rfl, by decide, by rfl, by decide⟩

/-- C5 (amended): an exact pattern NOT ending in the character `*`
matches only its full path (`/api/health` matches neither `/api/healthz`
nor `/api/health/`); a named-parameter capture is never the empty
string; dots in literal segments are literal; a pattern ending in the
terminal wildcard matches exactly the paths extending its prefix,
binding the remainder UP TO THE FIRST NEWLINE (Go regexp `.` does not
match `\n`); and the `$` anchor is omitted whenever the pattern STRING
ends in `*` — including a literal segment ending in `*`, which
therefore also matches every extension of its literal prefix. -/
theorem pattern_matching_semantics :
    (∀ path : GoStr,
      ((patMatch (str "/api/health") path).isSome = true ↔
        path = str "/api/health")) ∧
    (∀ (pattern : GoStr) (segs : List Seg) (names : List GoStr) (b : Bool)
      (path : GoStr) (caps : List GoStr),
      patternToRegex pattern = .ok (segs, names) →
      matchSegs segs b path = some caps →
      ∀ pr ∈ names.zip caps, pr.1 ≠ str "*" → pr.2 ≠ []) ∧
    (patMatch (str "/api/v1.0") (str "/api/v1x0") = none ∧
      patMatch (str "/api/v1.0") (str "/api/v1.0") = some []) ∧
    (∀ t : GoStr,
      patMatch (str "/api/*") (str "/api/" ++ t) =
        some [t.takeWhile notNewline]) ∧
    (∀ (path : GoStr) (caps : List GoStr),
      patMatch (str "/api/*") path = some caps →
      ∃ t, path = str "/api/" ++ t ∧ caps = [t.takeWhile notNewline]) ∧
    (∀ t : GoStr, patMatch (str "/foo*") (str "/foo*" ++ t) = some []) := by
  refine ⟨?_, ?_, ⟨by rfl, by rfl⟩, ?_, ?_, ?_⟩
  · intro path
    have h := matchSegs_lits_anchored [str "api", str "health"] path
    exact h
  · intro pattern segs names b path caps hpr hm pr hpr2 hne
    have hscan : patternSegsScan ((goSplit '/' pattern).drop 1) =
        .ok (segs, names) := by
      cases pattern with
      | nil => cases hpr
      | cons c rest =>
        by_cases hc : c = '/'
        · subst hc
          rw [show patternToRegex ('/' :: rest) =
              patternSegsScan ((goSplit '/' ('/' :: rest)).drop 1) from by
            simp [patternToRegex]] at hpr
          exact hpr
        · rw [show patternToRegex (c :: rest) =
              Except.error "pattern must start with /" from by
            simp [patternToRegex, hc]] at hpr
          cases hpr
    have hnames := patternSegsScan_names _ _ _ hscan
    have hf := matchSegs_param_caps segs b path caps hm
    subst hnames
    rw [List.zip_map_left] at hpr2
    rcases List.mem_map.1 hpr2 with ⟨⟨s, c⟩, hmem, hpr⟩
    have hP := (List.forall₂_iff_zip.1 hf).2 hmem
    have hs : s ∈ segs.filter isCapSeg := (List.of_mem_zip hmem).1
    have hcap : isCapSeg s = true := (List.mem_filter.1 hs).2
    rcases hpr
    cases s with
    | lit l => cases hcap
    | param n => exact hP n rfl
    | wild => exact absurd rfl hne
  · intro t
    show matchSegs [Seg.lit (str "api"), Seg.wild] false (str "/api/" ++ t) =
      some [t.takeWhile notNewline]
    have h1 : str "/api/" ++ t = '/' :: (str "api" ++ ('/' :: t)) := rfl
    rw [h1]
    rw [show matchSegs [Seg.lit (str "api"), Seg.wild] false
        ('/' :: (str "api" ++ ('/' :: t))) =
        matchSegs [Seg.wild] false
          ((str "api" ++ ('/' :: t)).drop (str "api").length) from by
      simp [matchSegs, isPre_self_append]]
    rw [List.drop_left]
    simp [matchSegs]
  · intro path caps h
    have h' : matchSegs [Seg.lit (str "api"), Seg.wild] false path = some caps := h
    cases path with
    | nil => simp [matchSegs] at h'
    | cons c p =>
      by_cases hc : c = '/'
      · subst hc
        by_cases hpre : isPre (str "api") p = true
        · obtain ⟨u, rfl⟩ := (isPre_iff _ p).1 hpre
          rw [show matchSegs [Seg.lit (str "api"), Seg.wild] false
              ('/' :: (str "api" ++ u)) =
              matchSegs [Seg.wild] false
                ((str "api" ++ u).drop (str "api").length) from by
            simp [matchSegs, hpre]] at h'
          rw [List.drop_left] at h'
          cases u with
          | nil => simp [matchSegs] at h'
          | cons c2 q =>
            by_cases hc2 : c2 = '/'
            · subst hc2
              rw [show matchSegs [Seg.wild] false ('/' :: q) =
                  some [q.takeWhile notNewline] from by
                simp [matchSegs]] at h'
              have hcaps : caps = [q.takeWhile notNewline] := by
                have := h'.symm
                simpa using this
              subst hcaps
              exact ⟨q, rfl, rfl⟩
            · rw [show matchSegs [Seg.wild] false (c2 :: q) = none from by
                simp [matchSegs, hc2]] at h'
              exact absurd h' (by simp)
        · rw [show matchSegs [Seg.lit (str "api"), Seg.wild] false
              ('/' :: p) = none from by simp [matchSegs, hpre]] at h'
          exact absurd h' (by simp)
      · rw [show matchSegs [Seg.lit (str "api"), Seg.wild] false (c :: p) =
            none from by simp [matchSegs, hc]] at h'
        exact absurd h' (by simp)
  · intro t
    show matchSegs [Seg.lit (str "foo*")] false (str "/foo*" ++ t) = some []
    have h1 : str "/foo*" ++ t = '/' :: (str "foo*" ++ t) := rfl
    rw [h1]
    rw [show matchSegs [Seg.lit (str "foo*")] false ('/' :: (str "foo*" ++ t)) =
        matchSegs [] false ((str "foo*" ++ t).drop (str "foo*").length) from by
      simp [matchSegs, isPre_self_append]]
    rfl

/-- C5 witness: the amended theorem applied at concrete patterns — the
exact pattern accepts its own path, and the `:id` capture of
`/users/42` is the non-empty `42`. -/
theorem pattern_matching_semantics_witness :
    (patMatch (str "/api/health") (str "/api/health")).isSome = true ∧
    (str "42" : GoStr) ≠ [] :=
  ⟨(pattern_matching_semantics.1 (str "/api/health")).mpr rfl,
   pattern_matching_semantics.2.1 (str "/users/:id") _ _ true
     (str "/users/42") [str "42"] rfl rfl (str "id", str "42")
     (by decide) (by decide)⟩

/-! ## C4 — priority-descending, submission-stable matching -/

/-- `idxBefore` implies a priority bound. -/
theorem idxBefore_le {x y : Nat × CompiledRule} (h : idxBefore x y) :
    y.2.rule.priority ≤ x.2.rule.priority := by
  rcases h with h | ⟨h, _⟩
  · exact le_of_lt h
  · exact le_of_eq h.symm

/-- Inserting an element whose index is below every index in an
`idxBefore`-sorted list keeps the list `idxBefore`-sorted. -/
theorem pairwise_orderedInsert_idx (a : Nat × CompiledRule) :
    ∀ (l : List (Nat × CompiledRule)), l.Pairwise idxBefore →
      (∀ b ∈ l, a.1 < b.1) →
      (List.orderedInsert crBeforeIdx a l).Pairwise idxBefore := by
  intro l
  induction l with
  | nil =>
    intro _ _
    simp [List.orderedInsert]
  | cons b l ih =>
    intro hl hidx
    obtain ⟨hb, hl'⟩ := List.pairwise_cons.1 hl
    by_cases hr : crBeforeIdx a b
    · rw [List.orderedInsert, if_pos hr]
      refine List.pairwise_cons.2 ⟨?_, hl⟩
      intro y hy
      have hylea : y.2.rule.priority ≤ a.2.rule.priority := by
        rcases List.mem_cons.1 hy with rfl | hy'
        · exact hr
        · exact le_trans (idxBefore_le (hb y hy')) hr
      rcases lt_or_eq_of_le hylea with hlt | heq
      · exact Or.inl hlt
      · exact Or.inr ⟨heq.symm, hidx y hy⟩
    · rw [List.orderedInsert, if_neg hr]
      refine List.pairwise_cons.2 ⟨?_, ?_⟩
      · intro y hy
        rcases (List.mem_orderedInsert crBeforeIdx).1 hy with rfl | hy'
        · exact Or.inl (lt_of_not_le hr)
        · exact hb y hy'
      · exact ih hl' (fun c hc => hidx c (List.mem_cons_of_mem b hc))

/-- The stable insertion sort of an index-increasing list is
`idxBefore`-sorted: priorities descend and ties keep submission order. -/
theorem pairwise_insertionSort_idx :
    ∀ (l : List (Nat × CompiledRule)),
      l.Pairwise (fun x y => x.1 < y.1) →
      (List.insertionSort crBeforeIdx l).Pairwise idxBefore := by
  intro l
  induction l with
  | nil => intro _; simp [List.insertionSort]
  | cons a l ih =>
    intro h
    obtain ⟨ha, hl⟩ := List.pairwise_cons.1 h
    rw [List.insertionSort]
    refine pairwise_orderedInsert_idx a _ (ih hl) ?_
    intro b hb
    exact ha b ((List.perm_insertionSort crBeforeIdx l).mem_iff.1 hb)

/-- Projecting the tags away commutes with ordered insertion. -/
theorem map_snd_orderedInsert (a : Nat × CompiledRule) :
    ∀ (l : List (Nat × CompiledRule)),
      (List.orderedInsert crBeforeIdx a l).map Prod.snd =
        List.orderedInsert crBefore a.2 (l.map Prod.snd) := by
  intro l
  induction l with
  | nil => rfl
  | cons b l ih =>
    by_cases hr : crBeforeIdx a b
    · have hr' : crBefore a.2 b.2 := hr
      rw [List.orderedInsert, if_pos hr]
      simp only [List.map_cons]
      rw [List.orderedInsert, if_pos hr']
    · have hr' : ¬ crBefore a.2 b.2 := hr
      rw [List.orderedInsert, if_neg hr]
      simp only [List.map_cons]
      rw [List.orderedInsert, if_neg hr', ← ih]

/-- Projecting the tags away commutes with the insertion sort. -/
theorem map_snd_insertionSort :
    ∀ (l : List (Nat × CompiledRule)),
      (List.insertionSort crBeforeIdx l).map Prod.snd =
        List.insertionSort crBefore (l.map Prod.snd) := by
  intro l
  induction l with
  | nil => rfl
  | cons a l ih =>
    rw [List.insertionSort, List.map_cons, List.insertionSort, ← ih,
      map_snd_orderedInsert]

/-- Every tag in `enumFrom n l` is at least `n`. -/
theorem le_fst_of_mem_enumFrom {α : Type} {x : Nat × α} :
    ∀ {n : Nat} {l : List α}, x ∈ List.enumFrom n l → n ≤ x.1 := by
  intro n l
  induction l generalizing n with
  | nil => intro h; cases h
  | cons a l ih =>
    intro h
    rcases List.mem_cons.1 h with rfl | h'
    · exact le_refl _
    · exact le_trans (Nat.le_succ n) (ih h')

/-- The tags of `enumFrom` are strictly increasing. -/
theorem pairwise_fst_lt_enumFrom {α : Type} :
    ∀ (n : Nat) (l : List α),
      (List.enumFrom n l).Pairwise (fun x y => x.1 < y.1) := by
  intro n l
  induction l generalizing n with
  | nil => simp
  | cons a l ih =>
    rw [List.enumFrom]
    refine List.pairwise_cons.2 ⟨?_, ih (n + 1)⟩
    intro y hy
    exact lt_of_lt_of_le (Nat.lt_succ_self n) (le_fst_of_mem_enumFrom hy)

/-- One step of the `Matcher.Match` scan: the head rule wins exactly when
it accepts, and its captures feed the result. -/
theorem matchScan_cons (m p : GoStr) (cr : CompiledRule)
    (rest : List CompiledRule) :
    matchScan m p (cr :: rest) =
      if crAccepts cr m p = true then
        (matchSegs cr.segs cr.anchored p).map (mkMatchResult cr)
      else matchScan m p rest := by
  rcases hms : cr.methods with _ | ms
  · rcases hseg : matchSegs cr.segs cr.anchored p with _ | caps
    · rw [show matchScan m p (cr :: rest) = matchScan m p rest from by
        simp [matchScan, hms, hseg]]
      rw [if_neg (by simp [crAccepts, hms, hseg])]
    · rw [show matchScan m p (cr :: rest) = some (mkMatchResult cr caps) from by
        simp [matchScan, hms, hseg]]
      rw [if_pos (by simp [crAccepts, hms, hseg])]
      simp [hseg]
  · by_cases hc : ms.contains m = true
    · have hc' : m ∈ ms := by simpa using hc
      rcases hseg : matchSegs cr.segs cr.anchored p with _ | caps
      · rw [show matchScan m p (cr :: rest) = matchScan m p rest from by
          simp [matchScan, hms, hc', hseg]]
        rw [if_neg (by simp [crAccepts, hms, hc', hseg])]
      · rw [show matchScan m p (cr :: rest) = some (mkMatchResult cr caps) from by
          simp [matchScan, hms, hc', hseg]]
        rw [if_pos (by simp [crAccepts, hms, hc', hseg])]
        simp [hseg]
    · have hc' : m ∉ ms := by simpa using hc
      rw [show matchScan m p (cr :: rest) = matchScan m p rest from by
        simp [matchScan, hms, hc']]
      rw [if_neg (by simp [crAccepts, hms, hc'])]

/-- The scan over an `idxBefore`-sorted tagged list returns the best
accepting rule: it accepts, its captures shape the result, and every
other accepting rule is itself or comes after in the `idxBefore` order;
a `none` answer means no rule accepts. -/
theorem matchScan_spec (m p : GoStr) :
    ∀ (e : List (Nat × CompiledRule)), e.Pairwise idxBefore →
      (∀ mt, matchScan m p (e.map Prod.snd) = some mt →
        ∃ x ∈ e, crAccepts x.2 m p = true ∧
          (∃ caps, matchSegs x.2.segs x.2.anchored p = some caps ∧
            mt = mkMatchResult x.2 caps) ∧
          ∀ y ∈ e, crAccepts y.2 m p = true → x = y ∨ idxBefore x y) ∧
      (matchScan m p (e.map Prod.snd) = none →
        ∀ y ∈ e, crAccepts y.2 m p = false) := by
  intro e
  induction e with
  | nil =>
    intro _
    constructor
    · intro mt h
      cases h
    · intro _ y hy
      cases hy
  | cons x e ih =>
    intro hp
    obtain ⟨hx, he⟩ := List.pairwise_cons.1 hp
    obtain ⟨ih1, ih2⟩ := ih he
    by_cases ha : crAccepts x.2 m p = true
    · have hsome : ∃ caps, matchSegs x.2.segs x.2.anchored p = some caps := by
        have : (matchSegs x.2.segs x.2.anchored p).isSome = true := by
          have := ha
          simp only [crAccepts, Bool.and_eq_true] at this
          exact this.2
        exact Option.isSome_iff_exists.1 this
      obtain ⟨caps, hcaps⟩ := hsome
      constructor
      · intro mt h
        rw [List.map_cons, matchScan_cons, if_pos ha, hcaps] at h
        simp only [Option.map_some'] at h
        refine ⟨x, List.mem_cons_self x e, ha, ⟨caps, hcaps, ?_⟩, ?_⟩
        · exact (Option.some.inj h).symm
        · intro y hy _
          rcases List.mem_cons.1 hy with rfl | hy'
          · exact Or.inl rfl
          · exact Or.inr (hx y hy')
      · intro h
        rw [List.map_cons, matchScan_cons, if_pos ha, hcaps] at h
        cases h
    · constructor
      · intro mt h
        rw [List.map_cons, matchScan_cons, if_neg ha] at h
        obtain ⟨y, hy, hacc, hcaps, hbest⟩ := ih1 mt h
        exact ⟨y, List.mem_cons_of_mem x hy, hacc, hcaps, by
          intro z hz hzacc
          rcases List.mem_cons.1 hz with rfl | hz'
          · exact absurd hzacc (by simpa using ha)
          · exact hbest z hz' hzacc⟩
      · intro h y hy
        rw [List.map_cons, matchScan_cons, if_neg ha] at h
        rcases List.mem_cons.1 hy with rfl | hy'
        · simpa using ha
        · exact ih2 h y hy'

/-- `compileAll` compiles index-wise. -/
theorem compileAll_get :
    ∀ (rl : List Rule) (crs : List CompiledRule),
      compileAll rl = .ok crs →
      rl.length = crs.length ∧
        ∀ (j : Nat) (h1 : j < rl.length) (h2 : j < crs.length),
          compileRule (rl.get ⟨j, h1⟩) = .ok (crs.get ⟨j, h2⟩) := by
  intro rl
  induction rl with
  | nil =>
    intro crs h
    have hc : crs = [] := by
      have h' : Except.ok ([] : List CompiledRule) = Except.ok crs := h
      simpa using h'.symm
    subst hc
    exact ⟨rfl, fun j h1 _ => absurd h1 (by simp)⟩
  | cons r rest ih =>
    intro crs h
    rcases hcr : compileRule r with e | cr
    · rw [show compileAll (r :: rest) = Except.error ⟨r.name, e⟩ from by
        simp [compileAll, hcr]] at h
      cases h
    · rcases hrest : compileAll rest with e | crs'
      · rw [show compileAll (r :: rest) = Except.error e from by
          simp [compileAll, hcr, hrest]] at h
        cases h
      · rw [show compileAll (r :: rest) = Except.ok (cr :: crs') from by
          simp [compileAll, hcr, hrest]] at h
        have hc : cr :: crs' = crs := by simpa using h
        subst hc
        obtain ⟨hlen, hget⟩ := ih crs' hrest
        refine ⟨by simpa using hlen, ?_⟩
        intro j h1 h2
        cases j with
        | zero => simpa using hcr
        | succ j =>
          exact hget j (Nat.lt_of_succ_lt_succ h1) (Nat.lt_of_succ_lt_succ h2)

/-- C4: on a successfully compiled rule list, `Match` returns the result
of the first rule in priority-descending, submission-stable order among
the accepting rules: the returned rule accepts, and every other
accepting rule either has strictly lower priority or equal priority and
a submission index no smaller; a `none` answer means no rule accepts.
(The compiled order is the stable sort of the submission order.) -/
theorem match_priority_stable :
    ∀ (rl : List Rule) (M : Matcher), rulesNew rl = .ok M →
    ∀ (method path : GoStr),
      (∀ mt, matcherMatch M method path = some mt →
        ∃ (i : Nat) (hi : i < rl.length) (cr : CompiledRule),
          compileRule (rl.get ⟨i, hi⟩) = .ok cr ∧
          crAccepts cr (goToUpper method) path = true ∧
          mt.rule = cr.rule ∧
          (∀ (j : Nat) (hj : j < rl.length) (cr2 : CompiledRule),
            compileRule (rl.get ⟨j, hj⟩) = .ok cr2 →
            crAccepts cr2 (goToUpper method) path = true →
            cr2.rule.priority < cr.rule.priority ∨
              (cr.rule.priority = cr2.rule.priority ∧ i ≤ j))) ∧
      (matcherMatch M method path = none →
        ∀ (j : Nat) (hj : j < rl.length) (cr2 : CompiledRule),
          compileRule (rl.get ⟨j, hj⟩) = .ok cr2 →
          crAccepts cr2 (goToUpper method) path = false) := by
  intro rl M h method path
  rcases hca : compileAll rl with e | crs
  · rw [show rulesNew rl = Except.error e from by simp [rulesNew, hca]] at h
    cases h
  · rw [show rulesNew rl = Except.ok ⟨List.insertionSort crBefore crs⟩ from by
      simp [rulesNew, hca]] at h
    have hM : (⟨List.insertionSort crBefore crs⟩ : Matcher) = M := by
      simpa using h
    subst hM
    obtain ⟨hlen, hget⟩ := compileAll_get rl crs hca
    have hpe : (List.insertionSort crBeforeIdx crs.enum).Pairwise idxBefore :=
      pairwise_insertionSort_idx _ (by
        have := pairwise_fst_lt_enumFrom 0 crs
        simpa [List.enum] using this)
    have hmapped : List.insertionSort crBefore crs =
        (List.insertionSort crBeforeIdx crs.enum).map Prod.snd := by
      rw [map_snd_insertionSort, List.enum_map_snd]
    have hspec := matchScan_spec (goToUpper method) path
      (List.insertionSort crBeforeIdx crs.enum) hpe
    have hmem_enum : ∀ (j : Nat) (hj2 : j < crs.length) (cr2 : CompiledRule),
        crs.get ⟨j, hj2⟩ = cr2 →
        (j, cr2) ∈ List.insertionSort crBeforeIdx crs.enum := by
      intro j hj2 cr2 hc
      refine (List.perm_insertionSort _ _).mem_iff.2 ?_
      apply List.mk_mem_enum_iff_getElem?.2
      rw [List.getElem?_eq_some]
      exact ⟨hj2, hc⟩
    constructor
    · intro mt hmt
      have hmt0 : matchScan (goToUpper method) path
          (List.insertionSort crBefore crs) = some mt := hmt
      rw [hmapped] at hmt0
      obtain ⟨x, hxmem, hacc, ⟨caps, hcaps, hmteq⟩, hbest⟩ := hspec.1 mt hmt0
      obtain ⟨i, cr⟩ := x
      have hxenum : (i, cr) ∈ crs.enum :=
        (List.perm_insertionSort crBeforeIdx crs.enum).mem_iff.1 hxmem
      have hget? : crs[i]? = some cr := List.mk_mem_enum_iff_getElem?.1 hxenum
      obtain ⟨hi2, hicr⟩ := List.getElem?_eq_some.1 hget?
      have hi : i < rl.length := by rw [hlen]; exact hi2
      refine ⟨i, hi, cr, ?_, hacc, ?_, ?_⟩
      · rw [hget i hi hi2, show crs.get ⟨i, hi2⟩ = cr from hicr]
      · rw [hmteq]
        rfl
      · intro j hj cr2 hc2 hacc2
        have hj2 : j < crs.length := by rw [← hlen]; exact hj
        have hcj := hget j hj hj2
        rw [hcj] at hc2
        have hcr2 : crs.get ⟨j, hj2⟩ = cr2 := by simpa using hc2
        have hymem := hmem_enum j hj2 cr2 hcr2
        rcases hbest (j, cr2) hymem hacc2 with heq | hlt
        · cases heq
          exact Or.inr ⟨rfl, le_refl i⟩
        · rcases hlt with hp | ⟨hp, hij⟩
          · exact Or.inl hp
          · exact Or.inr ⟨hp, le_of_lt hij⟩
    · intro hnone j hj cr2 hc2
      have hnone0 : matchScan (goToUpper method) path
          (List.insertionSort crBefore crs) = none := hnone
      rw [hmapped] at hnone0
      have hj2 : j < crs.length := by rw [← hlen]; exact hj
      have hcj := hget j hj hj2
      rw [hcj] at hc2
      have hcr2 : crs.get ⟨j, hj2⟩ = cr2 := by simpa using hc2
      exact hspec.2 hnone0 (j, cr2) (hmem_enum j hj2 cr2 hcr2)

/-- C4 witness: the theorem's `none` direction at a concrete one-rule
matcher — `POST` does not satisfy the compiled `GET`-only rule. -/
theorem match_priority_stable_witness :
    crAccepts crE1 (goToUpper (str "POST")) (str "/api/users/42") = false :=
  (match_priority_stable [ruleE1] matcherE1 rfl (str "POST")
    (str "/api/users/42")).2 rfl 0 (by decide) crE1 rfl

end Gatify
